import Mathlib

set_option maxRecDepth 100000

/-!
# Verification of the nivo calendar layout computation

Shallow embedding of `packages/calendar/src/compute.js`.

The JS code manipulates JavaScript `Date` values at local-midnight
day resolution, through the runtime `Date` API (`getDay`, `getFullYear`,
`getMonth`, the `new Date(y, m, d)` constructor with field overflow) and
the `d3-time` intervals (`timeYear`, `timeDays`, `timeMonths`, and the
weekday intervals `timeSunday` .. `timeSaturday`).

A date is modelled as its day number: the integer count of calendar days
since 1970-01-01 (the epoch).  All dates occurring in the program are
local midnights, so this representation is exact.  The proleptic
Gregorian calendar functions below (`jan1`, `yearOf`, `monthStart`,
`monthDayOf`, `mkDate`, `getDay`) model the ECMAScript `Date` semantics
at day resolution.  Lean's `Int` division `/` is euclidean division,
which coincides with floor division for the positive literal divisors
used throughout.
-/

/-- Day number of January 1st of year `y` (days since 1970-01-01),
by the standard rata-die formula for the proleptic Gregorian calendar. -/
def jan1 (y : Int) : Int :=
  365 * (y - 1) + (y - 1) / 4 - (y - 1) / 100 + (y - 1) / 400 - 719162

/-- First-order estimate of the calendar year containing day `z`:
the true year is within 1 of this value (`yEst_lower` / `yEst_upper`). -/
def yEst (z : Int) : Int := (400 * (z + 719468)) / 146097

/-- The calendar year containing day `z`: the estimate `yEst`
corrected by at most one in either direction.  Models
`date.getFullYear()`. -/
def yearOf (z : Int) : Int :=
  let y := yEst z
  if z < jan1 y then y - 1 else if jan1 (y + 1) ≤ z then y + 1 else y

/-- 1 when year `y` is a Gregorian leap year, 0 otherwise. -/
def leapBit (y : Int) : Int :=
  if y % 4 = 0 ∧ (y % 100 ≠ 0 ∨ y % 400 = 0) then 1 else 0

/-- Days from January 1st to the first of month `m0` (0-based month,
`m0 ∈ [0, 11]`) in a year whose leap bit is `L`. -/
def daysBeforeMonth (L m0 : Int) : Int :=
  if m0 < 2 then 31 * m0 else 59 + L + (153 * (m0 - 2) + 2) / 5

/-- Day number of the first day of the month with absolute month index
`i` (index `12 * year + month0`, so that index arithmetic models the
`new Date(y, m, d)` month overflow). -/
def monthStart (i : Int) : Int :=
  jan1 (i / 12) + daysBeforeMonth (leapBit (i / 12)) (i % 12)

/-- Model of the ECMAScript constructor `new Date(y, m0, d)` (0-based
month `m0`, 1-based day `d`): both month and day overflow/underflow
into neighbouring months, e.g. `new Date(y, m0 + 1, 0)` is the last day
of month `m0`. -/
def mkDate (y m0 d : Int) : Int :=
  monthStart (12 * y + m0) + (d - 1)

/-- The (1-based month, 1-based day-of-month) of day `z`.  Models
`date.getMonth() + 1` and `date.getDate()`. -/
def monthDayOf (z : Int) : Int × Int :=
  let y := yearOf z
  let L := leapBit y
  let doy := z - jan1 y
  if doy < 31 then (1, doy + 1)
  else if doy < 59 + L then (2, doy - 30)
  else
    let md := doy - 59 - L
    let mp := (5 * md + 2) / 153
    (mp + 3, md - (153 * mp + 2) / 5 + 1)

/-- Models `date.getMonth()` (0-based month). -/
def getMonth (z : Int) : Int := (monthDayOf z).1 - 1

/-- Models `date.getDate()` (1-based day of month). -/
def getDate (z : Int) : Int := (monthDayOf z).2

/-- Models `date.getDay()`: 0 = Sunday .. 6 = Saturday
(1970-01-01 was a Thursday, weekday 4). -/
def getDay (z : Int) : Int := (z + 4) % 7

/-- The `%Y-%m-%d` key of day `z`, as the triple of its numeric
components.  Models `d3.timeFormat('%Y-%m-%d')(date)`: the dash-joined
zero-padded decimal rendering is injective in this triple, so string
equality of keys coincides with equality of triples. -/
def dayKey (z : Int) : Int × Int × Int :=
  (yearOf z, (monthDayOf z).1, (monthDayOf z).2)

/-! ## Model of the d3-time intervals used by compute.js

A d3 weekday interval (`timeSunday` .. `timeSaturday`) is identified by
its anchor weekday (0 = Sunday .. 6 = Saturday).  Its `floor` maps a day
to the latest anchor weekday not after it; `count(a, b)` floors both
ends and divides the difference by 7; `range(a, b)` lists the anchor
weekdays in `[a, b)` starting at the ceiling of `a`. -/

/-- `d3.timeYear(date)`: floor to January 1st of the date's year. -/
def timeYear (z : Int) : Int := jan1 (yearOf z)

/-- Floor of day `z` for the weekday interval anchored at `anchor`. -/
def floorWeek (anchor z : Int) : Int := z - (getDay z - anchor) % 7

/-- `interval.count(a, b)` for the weekday interval anchored at `anchor`. -/
def weekCount (anchor a b : Int) : Int :=
  (floorWeek anchor b - floorWeek anchor a) / 7

/-- Ceiling of day `z` for the weekday interval anchored at `anchor`. -/
def ceilWeek (anchor z : Int) : Int := floorWeek anchor (z + 6)

/-- Length of `interval.range(lo, hi)` for a weekday interval. -/
def weekRangeLen (anchor lo hi : Int) : Int :=
  if ceilWeek anchor lo < hi then (hi - 1 - ceilWeek anchor lo) / 7 + 1 else 0

/-- `interval.range(lo, hi)` for a weekday interval: the anchor weekdays
`d` with `lo ≤ d < hi` (ceiling of `lo`, stepping by 7). -/
def weekRangeList (anchor lo hi : Int) : List Int :=
  (List.range (weekRangeLen anchor lo hi).toNat).map
    (fun (n : Nat) => ceilWeek anchor lo + 7 * (n : Int))

/-- `d3.timeDays(lo, hi)`: every day `d` with `lo ≤ d < hi`
(both arguments are midnights in every call site). -/
def timeDays (lo hi : Int) : List Int :=
  (List.range (hi - lo).toNat).map (fun (n : Nat) => lo + (n : Int))

/-- The least absolute month index whose first day is not before `z`. -/
def ceilMonthIdx (z : Int) : Int :=
  if (monthDayOf z).2 = 1 then 12 * yearOf z + ((monthDayOf z).1 - 1)
  else 12 * yearOf z + ((monthDayOf z).1 - 1) + 1

/-- `d3.timeMonths(lo, hi)`: the first-of-month days `d` with
`lo ≤ d < hi`. -/
def timeMonths (lo hi : Int) : List Int :=
  (List.range (ceilMonthIdx hi - ceilMonthIdx lo).toNat).map
    (fun (n : Nat) => monthStart (ceilMonthIdx lo + (n : Int)))

/-- lodash `range(a, b)` on integers: counts down when `b < a`. -/
def lodashRange (a b : Int) : List Int :=
  if a ≤ b then (List.range (b - a).toNat).map (fun (n : Nat) => a + (n : Int))
  else (List.range (a - b).toNat).map (fun (n : Nat) => a - (n : Int))

/-! ## Embedding of compute.js -/

inductive Direction where
  | horizontal
  | vertical
deriving DecidableEq

inductive LegendPosition where
  | before
  | after
deriving DecidableEq

/-- The nine standard box-alignment keywords of the core package. -/
inductive Align where
  | topLeft | top | topRight | left | center | right | bottomLeft | bottom | bottomRight
deriving DecidableEq

structure BBox where
  x : ℚ
  y : ℚ
  width : ℚ
  height : ℚ
deriving DecidableEq, Repr

/-- Modelled from the spec: the `alignBox` utility is imported from the
core package, which is not under `src/`; §6 of the spec describes it as
`align(innerBox, outerBox, alignmentKeyword) -> (offsetX, offsetY)`
supporting the nine standard box-alignment positions (corners,
edge-midpoints, center). -/
def alignBox (inner outer : BBox) (al : Align) : ℚ × ℚ :=
  let xLeft := outer.x
  let xCenter := outer.x + (outer.width - inner.width) / 2
  let xRight := outer.x + outer.width - inner.width
  let yTop := outer.y
  let yCenter := outer.y + (outer.height - inner.height) / 2
  let yBottom := outer.y + outer.height - inner.height
  match al with
  | .topLeft => (xLeft, yTop)
  | .top => (xCenter, yTop)
  | .topRight => (xRight, yTop)
  | .left => (xLeft, yCenter)
  | .center => (xCenter, yCenter)
  | .right => (xRight, yCenter)
  | .bottomLeft => (xLeft, yBottom)
  | .bottom => (xCenter, yBottom)
  | .bottomRight => (xRight, yBottom)

/-- `computeCellSize` (compute.js lines 55-80). -/
def computeCellSize (width height : ℚ) (direction : Direction)
    (yearRange : List Int) (yearSpacing daySpacing maxWeeks : ℚ) : ℚ :=
  match direction with
  | .horizontal =>
      let hCellSize := (width - daySpacing * maxWeeks) / maxWeeks
      let vCellSize :=
        (height - ((yearRange.length : ℚ) - 1) * yearSpacing
          - (yearRange.length : ℚ) * (8 * daySpacing)) / ((yearRange.length : ℚ) * 7)
      min hCellSize vCellSize
  | .vertical =>
      let hCellSize :=
        (width - ((yearRange.length : ℚ) - 1) * yearSpacing
          - (yearRange.length : ℚ) * (8 * daySpacing)) / ((yearRange.length : ℚ) * 7)
      let vCellSize := (height - daySpacing * maxWeeks) / maxWeeks
      min hCellSize vCellSize

/-- The literal `[0, 1, 2, 3, 4, 5, 6]` of `getDayIndex`. -/
def jsDays : List Int := [0, 1, 2, 3, 4, 5, 6]

/-- JavaScript `Array.prototype.slice(begin)`: a negative `begin` counts
from the end (clamped to 0), a large `begin` yields the empty array. -/
def jsSliceFrom (l : List Int) (b : Int) : List Int :=
  l.drop (if b < 0 then ((l.length : Int) + b).toNat else b.toNat)

/-- `getDayIndex` (compute.js lines 82-88): `days.slice(offsetDay)[0]`.
Indexing an empty slice gives `undefined`, modelled as `none`. -/
def getDayIndex (date firstDayOfWeek : Int) : Option Int :=
  (jsSliceFrom jsDays (getDay date - firstDayOfWeek)).head?

/-- `getTimeInterval` (compute.js lines 90-108): the switch selecting a
d3 weekday interval, identified by its anchor weekday; `case 0` and
`default` both yield `timeSunday`. -/
def getTimeInterval (firstDayOfWeek : Int) : Int :=
  if firstDayOfWeek = 1 then 1
  else if firstDayOfWeek = 2 then 2
  else if firstDayOfWeek = 3 then 3
  else if firstDayOfWeek = 4 then 4
  else if firstDayOfWeek = 5 then 5
  else if firstDayOfWeek = 6 then 6
  else 0

structure MonthParams where
  date : Int
  cellSize : ℚ
  yearIndex : Int
  yearSpacing : ℚ
  daySpacing : ℚ
  direction : Direction
  originX : ℚ
  originY : ℚ
  firstDayOfWeek : Int
deriving DecidableEq

/-- Result of `monthPathAndBBox`.  The SVG path string
`M…,…H…V…H…V…H…V…H…Z` is represented by the list of its nine
coordinates in order of appearance; the fixed command template makes
this representation bijective with the string. -/
structure MonthPB where
  path : List ℚ
  bbox : BBox
deriving DecidableEq, Repr

/-- `const t1 = new Date(date.getFullYear(), date.getMonth() + 1, 0)`
(compute.js line 136): the end-boundary day of the month of `date`,
from which `lastWeek` and `lastDay` are derived. -/
def monthEndBoundary (date : Int) : Int :=
  mkDate (yearOf date) (getMonth date + 1) 0

/-- Body of `monthPathAndBBox` (compute.js lines 136-187) given the two
day indices `firstDay = getDayIndex(date)` / `lastDay =
getDayIndex(t1)` already extracted. -/
def monthPBcore (p : MonthParams) (firstDay lastDay : Int) : MonthPB :=
  let t1 := monthEndBoundary p.date
  let timeInterval := getTimeInterval p.firstDayOfWeek
  let firstWeek := weekCount timeInterval (timeYear p.date) p.date
  let lastWeek := weekCount timeInterval (timeYear t1) t1
  let yearOffset : ℚ := (p.yearIndex : ℚ) * (7 * (p.cellSize + p.daySpacing) + p.yearSpacing)
  match p.direction with
  | .horizontal =>
      let xO := p.originX
      let yO := p.originY + yearOffset
      { path :=
            [xO + ((firstWeek : ℚ) + 1) * (p.cellSize + p.daySpacing),
             yO + (firstDay : ℚ) * (p.cellSize + p.daySpacing),
             xO + (firstWeek : ℚ) * (p.cellSize + p.daySpacing),
             yO + 7 * (p.cellSize + p.daySpacing),
             xO + (lastWeek : ℚ) * (p.cellSize + p.daySpacing),
             yO + ((lastDay : ℚ) + 1) * (p.cellSize + p.daySpacing),
             xO + ((lastWeek : ℚ) + 1) * (p.cellSize + p.daySpacing),
             yO,
             xO + ((firstWeek : ℚ) + 1) * (p.cellSize + p.daySpacing)],
          bbox :=
            { x := xO + (firstWeek : ℚ) * (p.cellSize + p.daySpacing),
              y := yO,
              width := xO + ((lastWeek : ℚ) + 1) * (p.cellSize + p.daySpacing)
                - (xO + (firstWeek : ℚ) * (p.cellSize + p.daySpacing)),
              height := 7 * (p.cellSize + p.daySpacing) } }
  | .vertical =>
      let xO := p.originX + yearOffset
      let yO := p.originY
      { path :=
            [xO + (firstDay : ℚ) * (p.cellSize + p.daySpacing),
             yO + ((firstWeek : ℚ) + 1) * (p.cellSize + p.daySpacing),
             xO,
             yO + ((lastWeek : ℚ) + 1) * (p.cellSize + p.daySpacing),
             xO + ((lastDay : ℚ) + 1) * (p.cellSize + p.daySpacing),
             yO + (lastWeek : ℚ) * (p.cellSize + p.daySpacing),
             xO + 7 * (p.cellSize + p.daySpacing),
             yO + (firstWeek : ℚ) * (p.cellSize + p.daySpacing),
             xO + (firstDay : ℚ) * (p.cellSize + p.daySpacing)],
          bbox :=
            { x := xO,
              y := yO + (firstWeek : ℚ) * (p.cellSize + p.daySpacing),
              width := 7 * (p.cellSize + p.daySpacing),
              height := yO + ((lastWeek : ℚ) + 1) * (p.cellSize + p.daySpacing)
                - (yO + (firstWeek : ℚ) * (p.cellSize + p.daySpacing)) } }

/-- `monthPathAndBBox` (compute.js lines 124-188).  `none` models the
NaN-poisoned output produced when `getDayIndex` yields `undefined`
(invalid `firstDayOfWeek`). -/
def monthPathAndBBox (p : MonthParams) : Option MonthPB := do
  let firstDay ← getDayIndex p.date p.firstDayOfWeek
  let lastDay ← getDayIndex (monthEndBoundary p.date) p.firstDayOfWeek
  pure (monthPBcore p firstDay lastDay)

abbrev Cache := List (MonthParams × Option MonthPB)

/-- Cache lookup of the lodash-memoized `monthPathAndBBox`.  The memo
key is the dot-joined stringification of the whole parameter tuple
(`date.toString()`, numbers, direction); on the tuples produced within
any call this stringification is injective, so the tuple itself is used
as the key. -/
def memoLookup (c : Cache) (p : MonthParams) : Option (Option MonthPB) :=
  (c.find? (fun e => decide (e.1 = p))).map (fun e => e.2)

/-- `memoMonthPathAndBBox` (compute.js lines 193-208): return the cached
result when the key is present, otherwise compute and record it.  The
cache is module-level mutable state in the source, threaded explicitly
here. -/
def memoMonthPathAndBBox (c : Cache) (p : MonthParams) : Option MonthPB × Cache :=
  match memoLookup c p with
  | some r => (r, c)
  | none => (monthPathAndBBox p, (p, monthPathAndBBox p) :: c)

/-- The sequence of `memoMonthPathAndBBox` calls a layout performs,
threading the cache left to right. -/
def mapMemo : Cache → List MonthParams → List (Option MonthPB) × Cache
  | c, [] => ([], c)
  | c, p :: ps =>
      let rc := memoMonthPathAndBBox c p
      let rest := mapMemo rc.2 ps
      (rc.1 :: rest.1, rest.2)

/-- `cellPositionHorizontal` (compute.js lines 219-233). -/
def cellPositionHorizontal (cellSize yearSpacing daySpacing : ℚ)
    (firstDayOfWeek : Int) (originX originY : ℚ) (d yearIndex : Int) :
    Option (ℚ × ℚ) :=
  let timeInterval := getTimeInterval firstDayOfWeek
  let weekOfYear := weekCount timeInterval (timeYear d) d
  (getDayIndex d firstDayOfWeek).map (fun (dayIndex : Int) =>
    (originX + (weekOfYear : ℚ) * (cellSize + daySpacing) + daySpacing / 2,
     originY + (dayIndex : ℚ) * (cellSize + daySpacing) + daySpacing / 2
       + (yearIndex : ℚ) * (yearSpacing + 7 * (cellSize + daySpacing))))

/-- `cellPositionVertical` (compute.js lines 244-258). -/
def cellPositionVertical (cellSize yearSpacing daySpacing : ℚ)
    (firstDayOfWeek : Int) (originX originY : ℚ) (d yearIndex : Int) :
    Option (ℚ × ℚ) :=
  let timeInterval := getTimeInterval firstDayOfWeek
  let weekOfYear := weekCount timeInterval (timeYear d) d
  (getDayIndex d firstDayOfWeek).map (fun (dayIndex : Int) =>
    (originX + (dayIndex : ℚ) * (cellSize + daySpacing) + daySpacing / 2
       + (yearIndex : ℚ) * (yearSpacing + 7 * (cellSize + daySpacing)),
     originY + (weekOfYear : ℚ) * (cellSize + daySpacing) + daySpacing / 2))

/-- An external data record `{day, value, …}` consumed by
`bindDaysData`; `K` is the type standing for the `%Y-%m-%d` key
strings. -/
structure DataRec (K : Type) where
  day : K
  value : ℚ
deriving DecidableEq

/-- A day cell record.  `value`, `color` and `data` are absent
(`none`) until `bindDaysData` attaches them. -/
structure DayRec (K : Type) where
  date : Int
  day : K
  size : ℚ
  x : ℚ
  y : ℚ
  value : Option ℚ := none
  color : Option String := none
  data : Option (DataRec K) := none
deriving DecidableEq

structure MonthRec where
  date : Int
  year : Int
  month : Int
  path : List ℚ
  bbox : BBox
deriving DecidableEq, Repr

structure YearRec where
  year : Int
  bbox : BBox
deriving DecidableEq, Repr

structure Layout where
  years : List YearRec
  months : List MonthRec
  days : List (DayRec (Int × Int × Int))
  cellSize : ℚ
  calendarWidth : ℚ
  calendarHeight : ℚ
  originX : ℚ
  originY : ℚ
deriving DecidableEq

/-- Arguments of `computeLayout`.  `from`/`to` may arrive as dates or
parseable strings in JS and are normalized to dates first
(`isDate(from) ? from : new Date(from)`); the model receives the
normalized dates. -/
structure LayoutArgs where
  width : ℚ
  height : ℚ
  fromDate : Int
  toDate : Int
  direction : Direction
  yearSpacing : ℚ
  daySpacing : ℚ
  align : Align
  firstDayOfWeek : Int

/-- The values `computeLayout` derives before its per-year loop
(compute.js lines 288-337). -/
structure LayoutCtx where
  yearRange : List Int
  maxWeeks : ℚ
  cellSize : ℚ
  monthsSize : ℚ
  yearsSize : ℚ
  calendarWidth : ℚ
  calendarHeight : ℚ
  originX : ℚ
  originY : ℚ

/-- Prefix of `computeLayout` up to the per-year loop.  `Math.max` of an
empty spread (empty year range) is `-Infinity`, and the resulting layout
is degenerate; this is modelled as `none`. -/
def layoutPrelude (a : LayoutArgs) : Option LayoutCtx :=
  let yearRange := lodashRange (yearOf a.fromDate) (yearOf a.toDate + 1)
  let weeksPerYear := yearRange.map (fun year =>
    ((weekRangeList (getTimeInterval a.firstDayOfWeek)
      (mkDate year 0 1) (mkDate (year + 1) 0 1)).length : Int))
  weeksPerYear.max?.map (fun (mx : Int) =>
    let maxWeeks : ℚ := (mx : ℚ) + 1
    let cellSize := computeCellSize a.width a.height a.direction yearRange
      a.yearSpacing a.daySpacing maxWeeks
    let monthsSize := cellSize * maxWeeks + a.daySpacing * maxWeeks
    let yearsSize := (cellSize + a.daySpacing) * 7 * (yearRange.length : ℚ)
      + a.yearSpacing * ((yearRange.length : ℚ) - 1)
    let calendarWidth := match a.direction with
      | .horizontal => monthsSize
      | .vertical => yearsSize
    let calendarHeight := match a.direction with
      | .horizontal => yearsSize
      | .vertical => monthsSize
    let o := alignBox ⟨0, 0, calendarWidth, calendarHeight⟩
      ⟨0, 0, a.width, a.height⟩ a.align
    ⟨yearRange, maxWeeks, cellSize, monthsSize, yearsSize,
      calendarWidth, calendarHeight, o.1, o.2⟩)

/-- The `monthPathAndBBox` parameter tuples built for year number
`year` at loop index `i` (compute.js lines 358-373). -/
def monthParamsOfYear (a : LayoutArgs) (ctx : LayoutCtx) (i : Nat) (year : Int) :
    List MonthParams :=
  (timeMonths (mkDate year 0 1) (mkDate (year + 1) 0 1)).map (fun monthDate =>
    { date := monthDate, cellSize := ctx.cellSize, yearIndex := (i : Int),
      yearSpacing := a.yearSpacing, daySpacing := a.daySpacing,
      direction := a.direction, originX := ctx.originX, originY := ctx.originY,
      firstDayOfWeek := a.firstDayOfWeek })

/-- Collects a list of optional values, `none` when any entry is
`none` (the Option analogue of sequencing the JS `.map` calls whose
entries may be NaN-poisoned). -/
def optionList {α : Type} : List (Option α) → Option (List α)
  | [] => some []
  | x :: xs => x.bind (fun v => (optionList xs).map (fun vs => v :: vs))

/-- The day records of one year of the loop (compute.js lines 347-356). -/
def dayRecordsOfYear (a : LayoutArgs) (ctx : LayoutCtx) (i : Nat) (year : Int) :
    Option (List (DayRec (Int × Int × Int))) :=
  let cellPosition := match a.direction with
    | .horizontal => cellPositionHorizontal ctx.cellSize a.yearSpacing a.daySpacing a.firstDayOfWeek
    | .vertical => cellPositionVertical ctx.cellSize a.yearSpacing a.daySpacing a.firstDayOfWeek
  optionList ((timeDays (mkDate year 0 1) (mkDate (year + 1) 0 1)).map (fun dayDate =>
    (cellPosition ctx.originX ctx.originY dayDate (i : Int)).map (fun pos =>
      { date := dayDate, day := dayKey dayDate, size := ctx.cellSize,
        x := pos.1, y := pos.2 })))

/-- The month records of one year, from the month dates and the
corresponding `monthPathAndBBox` results. -/
def monthRecordsOfYear (monthDates : List Int) (rs : List (Option MonthPB)) :
    Option (List MonthRec) :=
  optionList ((monthDates.zip rs).map (fun pr =>
    pr.2.map (fun pb =>
      { date := pr.1, year := yearOf pr.1, month := getMonth pr.1,
        path := pb.path, bbox := pb.bbox })))

/-- The year record pushed at the end of one loop iteration (compute.js
lines 377-385), from `yearMonths[0]` and `yearMonths[11]`. -/
def yearRecordOf (year : Int) (yearMonths : List MonthRec) : Option YearRec := do
  let m0 ← yearMonths.head?
  let m11 ← yearMonths.get? 11
  pure { year := year,
         bbox := { x := m0.bbox.x, y := m0.bbox.y,
                   width := m11.bbox.x - m0.bbox.x + m11.bbox.width,
                   height := m11.bbox.y - m0.bbox.y + m11.bbox.height } }

/-- The per-year loop of `computeLayout` (compute.js lines 343-386) and
the final result record, given the `monthPathAndBBox` results of each
year (grouped in loop order). -/
def assembleLayout (a : LayoutArgs) (ctx : LayoutCtx)
    (grouped : List (List (Option MonthPB))) : Option Layout := do
  let perYear ← optionList ((ctx.yearRange.enum.zip grouped).map (fun gr => do
      let days ← dayRecordsOfYear a ctx gr.1.1 gr.1.2
      let yearMonths ← monthRecordsOfYear
        (timeMonths (mkDate gr.1.2 0 1) (mkDate (gr.1.2 + 1) 0 1)) gr.2
      let yrec ← yearRecordOf gr.1.2 yearMonths
      pure (days, yearMonths, yrec)))
  pure { years := perYear.map (fun t => t.2.2),
         months := (perYear.map (fun t => t.2.1)).flatten,
         days := (perYear.map (fun t => t.1)).flatten,
         cellSize := ctx.cellSize,
         calendarWidth := ctx.calendarWidth,
         calendarHeight := ctx.calendarHeight,
         originX := ctx.originX,
         originY := ctx.originY }

/-- `computeLayout` (compute.js lines 277-389), with the month-outline
memoization read through (`memoMonthPathAndBBox` caches the pure
`monthPathAndBBox`; see `computeLayoutMemo` for the cache-threaded
version and `computeLayoutMemo_fst` for their agreement). -/
def computeLayout (a : LayoutArgs) : Option Layout :=
  (layoutPrelude a).bind (fun ctx =>
    assembleLayout a ctx (ctx.yearRange.enum.map (fun iy =>
      (monthParamsOfYear a ctx iy.1 iy.2).map monthPathAndBBox)))

/-- The loop of `computeLayout` threading the memo cache through the
`memoMonthPathAndBBox` calls, year by year. -/
def yearsMemo (a : LayoutArgs) (ctx : LayoutCtx) :
    Cache → List (Nat × Int) → List (List (Option MonthPB)) × Cache
  | c, [] => ([], c)
  | c, iy :: rest =>
      let rc := mapMemo c (monthParamsOfYear a ctx iy.1 iy.2)
      let rest2 := yearsMemo a ctx rc.2 rest
      (rc.1 :: rest2.1, rest2.2)

/-- `computeLayout` with the module-level memo cache made explicit:
takes the cache state and returns the layout together with the new
cache state. -/
def computeLayoutMemo (a : LayoutArgs) (c : Cache) : Option Layout × Cache :=
  match layoutPrelude a with
  | none => (none, c)
  | some ctx =>
      let gc := yearsMemo a ctx c ctx.yearRange.enum
      (assembleLayout a ctx gc.1, gc.2)

/-- One step of the inner `data.forEach` of `bindDaysData`
(compute.js lines 403-409): overwrite `value`/`color`/`data` when the
data record's day key matches the day's. -/
def bindStep {K : Type} [DecidableEq K] (colorScale : ℚ → String)
    (d : DayRec K) (dayData : DataRec K) : DayRec K :=
  if dayData.day = d.day then
    { d with value := some dayData.value,
             color := some (colorScale dayData.value),
             data := some dayData }
  else d

/-- `bindDaysData` (compute.js lines 400-413): set `color` to the empty
color, then scan `data` in order, overwriting `value`/`color`/`data` on
every record whose day key matches.  The source mutates the day records
in place and returns them; the model returns the updated records. -/
def bindDaysData {K : Type} [DecidableEq K] (days : List (DayRec K))
    (data : List (DataRec K)) (colorScale : ℚ → String) (emptyColor : String) :
    List (DayRec K) :=
  days.map (fun day =>
    data.foldl (bindStep colorScale) { day with color := some emptyColor })

/-- A year record augmented with a legend anchor. -/
structure YearLegend where
  year : Int
  bbox : BBox
  x : ℚ
  y : ℚ
  rotation : ℚ
deriving DecidableEq, Repr

/-- `computeYearLegendPositions` (compute.js lines 415-443). -/
def computeYearLegendPositions (years : List YearRec) (direction : Direction)
    (position : LegendPosition) (offset : ℚ) : List YearLegend :=
  years.map (fun year =>
    match direction, position with
    | .horizontal, .before =>
        ⟨year.year, year.bbox, year.bbox.x - offset,
         year.bbox.y + year.bbox.height / 2, -90⟩
    | .horizontal, .after =>
        ⟨year.year, year.bbox, year.bbox.x + year.bbox.width + offset,
         year.bbox.y + year.bbox.height / 2, -90⟩
    | .vertical, .before =>
        ⟨year.year, year.bbox, year.bbox.x + year.bbox.width / 2,
         year.bbox.y - offset, 0⟩
    | .vertical, .after =>
        ⟨year.year, year.bbox, year.bbox.x + year.bbox.width / 2,
         year.bbox.y + year.bbox.height + offset, 0⟩)

/-! ## Auxiliary definitions used by the statements -/

/-- Two axis-aligned rectangles overlap: their interiors intersect. -/
def bboxOverlap (b1 b2 : BBox) : Prop :=
  b1.x < b2.x + b2.width ∧ b2.x < b1.x + b1.width ∧
  b1.y < b2.y + b2.height ∧ b2.y < b1.y + b1.height

instance (b1 b2 : BBox) : Decidable (bboxOverlap b1 b2) := by
  unfold bboxOverlap
  infer_instance

/-- Follows the spec's words (§4.2): the weeks-axis candidate cell size,
"available space (total minus spacing) divided by the number of cells
needed along that axis" — one `daySpacing` consumed per week column,
`maxWeeks` cells.  Stated from the spec, for comparison with
`computeCellSize`. -/
def specWeeksFit (total daySpacing maxWeeks : ℚ) : ℚ :=
  (total - daySpacing * maxWeeks) / maxWeeks

/-- Follows the spec's words (§4.2): the days-of-week-axis candidate
cell size — the year gaps and 8 `daySpacing`s per year band consumed,
`7 * yearCount` cells.  Stated from the spec, for comparison with
`computeCellSize`. -/
def specDaysFit (total yearSpacing daySpacing yearCount : ℚ) : ℚ :=
  (total - (yearCount - 1) * yearSpacing - yearCount * (8 * daySpacing)) / (yearCount * 7)

/-- The last data record (in iteration order) whose `day` key equals
`k`: the record that wins under `bindDaysData`'s last-write-wins
behaviour. -/
def lastDataFor {K : Type} [DecidableEq K] (data : List (DataRec K)) (k : K) :
    Option (DataRec K) :=
  data.reverse.find? (fun r => decide (r.day = k))

/-- The day-index formula `(nativeWeekday - firstDayOfWeek + 7) mod 7`:
the value `getDayIndex` computes for a valid `firstDayOfWeek`
(`getDayIndex_eq`). -/
def dayIndexT (z f : Int) : Int := (getDay z - f + 7) % 7

/-- The week-offset of day `z` within its year under the interval
selected by `firstDayOfWeek` (the `weekOfYear` of the cell-position
functions). -/
def weekOfYearT (f z : Int) : Int :=
  weekCount (getTimeInterval f) (timeYear z) z

/-- The day record `computeLayout` produces for day `z` of the year at
loop index `i`, in closed form (no `Option`). -/
def dayRecT (a : LayoutArgs) (ctx : LayoutCtx) (i : Nat) (z : Int) :
    DayRec (Int × Int × Int) :=
  match a.direction with
  | .horizontal =>
      { date := z, day := dayKey z, size := ctx.cellSize,
        x := ctx.originX + (weekOfYearT a.firstDayOfWeek z : ℚ) * (ctx.cellSize + a.daySpacing)
          + a.daySpacing / 2,
        y := ctx.originY + (dayIndexT z a.firstDayOfWeek : ℚ) * (ctx.cellSize + a.daySpacing)
          + a.daySpacing / 2
          + ((i : Int) : ℚ) * (a.yearSpacing + 7 * (ctx.cellSize + a.daySpacing)) }
  | .vertical =>
      { date := z, day := dayKey z, size := ctx.cellSize,
        x := ctx.originX + (dayIndexT z a.firstDayOfWeek : ℚ) * (ctx.cellSize + a.daySpacing)
          + a.daySpacing / 2
          + ((i : Int) : ℚ) * (a.yearSpacing + 7 * (ctx.cellSize + a.daySpacing)),
        y := ctx.originY + (weekOfYearT a.firstDayOfWeek z : ℚ) * (ctx.cellSize + a.daySpacing)
          + a.daySpacing / 2 }

/-- The `monthPathAndBBox` parameter tuple of month `j` (0-based) of
the year `year` at loop index `i`. -/
def monthParamT (a : LayoutArgs) (ctx : LayoutCtx) (i : Nat) (year : Int) (j : Nat) :
    MonthParams :=
  { date := monthStart (12 * year + (j : Int)), cellSize := ctx.cellSize,
    yearIndex := (i : Int), yearSpacing := a.yearSpacing,
    daySpacing := a.daySpacing, direction := a.direction,
    originX := ctx.originX, originY := ctx.originY,
    firstDayOfWeek := a.firstDayOfWeek }

/-- The month record `computeLayout` produces for month `j` (0-based)
of the year at loop index `i`, in closed form. -/
def monthRecT (a : LayoutArgs) (ctx : LayoutCtx) (i : Nat) (year : Int) (j : Nat) :
    MonthRec :=
  { date := monthStart (12 * year + (j : Int)),
    year := yearOf (monthStart (12 * year + (j : Int))),
    month := getMonth (monthStart (12 * year + (j : Int))),
    path := (monthPBcore (monthParamT a ctx i year j)
      (dayIndexT (monthStart (12 * year + (j : Int))) a.firstDayOfWeek)
      (dayIndexT (monthEndBoundary (monthStart (12 * year + (j : Int)))) a.firstDayOfWeek)).path,
    bbox := (monthPBcore (monthParamT a ctx i year j)
      (dayIndexT (monthStart (12 * year + (j : Int))) a.firstDayOfWeek)
      (dayIndexT (monthEndBoundary (monthStart (12 * year + (j : Int)))) a.firstDayOfWeek)).bbox }

/-- The year record `computeLayout` produces for the year at loop
index `i`, in closed form. -/
def yearRecT (a : LayoutArgs) (ctx : LayoutCtx) (i : Nat) (year : Int) : YearRec :=
  { year := year,
    bbox := { x := (monthRecT a ctx i year 0).bbox.x,
              y := (monthRecT a ctx i year 0).bbox.y,
              width := (monthRecT a ctx i year 11).bbox.x
                - (monthRecT a ctx i year 0).bbox.x
                + (monthRecT a ctx i year 11).bbox.width,
              height := (monthRecT a ctx i year 11).bbox.y
                - (monthRecT a ctx i year 0).bbox.y
                + (monthRecT a ctx i year 11).bbox.height } }

/-- The near edge of a bounding box along the week axis of the given
direction. -/
def weekAxisNear (d : Direction) (b : BBox) : ℚ :=
  match d with
  | .horizontal => b.x
  | .vertical => b.y

/-- The far edge of a bounding box along the week axis of the given
direction. -/
def weekAxisFar (d : Direction) (b : BBox) : ℚ :=
  match d with
  | .horizontal => b.x + b.width
  | .vertical => b.y + b.height

/-- A cache state in which every stored entry is the value of
`monthPathAndBBox` at its key — the invariant maintained by the
module-level lodash memo cache. -/
def validCache (c : Cache) : Prop :=
  ∀ e ∈ c, e.2 = monthPathAndBBox e.1

/-- The spec's concrete scenario: `{width:800, height:200,
from:'2018-01-01', to:'2018-12-31', direction:'horizontal',
yearSpacing:30, daySpacing:2, align:'center', firstDayOfWeek:0}`
(2018-01-01 is day 17532, 2018-12-31 is day 17896). -/
def args2018 : LayoutArgs :=
  { width := 800, height := 200, fromDate := 17532, toDate := 17896,
    direction := .horizontal, yearSpacing := 30, daySpacing := 2,
    align := .center, firstDayOfWeek := 0 }

/-- A short range: `from = '2018-03-01'` (day 17591),
`to = '2018-03-05'` (day 17595), other arguments as in `args2018`. -/
def argsMarch : LayoutArgs :=
  { width := 800, height := 200, fromDate := 17591, toDate := 17595,
    direction := .horizontal, yearSpacing := 30, daySpacing := 2,
    align := .center, firstDayOfWeek := 0 }

/-- The layout computed for the spec's 2018 scenario (the default is
never used: the range is non-degenerate). -/
def L2018 : Layout := (computeLayout args2018).getD ⟨[], [], [], 0, 0, 0, 0, 0⟩

/-- A placeholder month record, used as the `getD` default when reading
months out of `L2018` (never actually returned). -/
def dfltMonth : MonthRec := ⟨0, 0, 0, [], ⟨0, 0, 0, 0⟩⟩

/-- January 2018's month record in `L2018`. -/
def month0of2018 : MonthRec := L2018.months.getD 0 dfltMonth

/-- February 2018's month record in `L2018`. -/
def month1of2018 : MonthRec := L2018.months.getD 1 dfltMonth

/-! ## Characterization of the calendar model -/

example : jan1 1970 = 0 := by decide
example : jan1 2018 = 17532 := by decide
example : jan1 2019 = 17897 := by decide
example : yearOf 0 = 1970 := by decide
example : yearOf 17531 = 2017 := by decide
example : yearOf 17532 = 2018 := by decide
example : mkDate 2018 0 1 = 17532 := by decide
example : mkDate 2018 1 0 = 17562 := by decide
example : monthDayOf 17562 = (1, 31) := by decide
example : monthDayOf 17563 = (2, 1) := by decide
example : monthDayOf 17896 = (12, 31) := by decide
example : getDay 0 = 4 := by decide
example : getDay 17532 = 1 := by decide

theorem jan1_succ (y : Int) : jan1 (y + 1) = jan1 y + 365 + leapBit y := by
  simp only [jan1, leapBit]
  split_ifs <;> omega

theorem jan1_strict_mono {y1 y2 : Int} (h : y1 < y2) : jan1 y1 < jan1 y2 := by
  simp only [jan1]
  omega

theorem jan1_mono {y1 y2 : Int} (h : y1 ≤ y2) : jan1 y1 ≤ jan1 y2 := by
  simp only [jan1]
  omega

theorem yEst_lower (z : Int) : jan1 (yEst z - 1) ≤ z := by
  simp only [jan1, yEst]
  omega

theorem yEst_upper (z : Int) : z < jan1 (yEst z + 2) := by
  simp only [jan1, yEst]
  omega

/-- `yearOf z` is the year whose January 1st interval contains `z`. -/
theorem yearOf_spec (z : Int) : jan1 (yearOf z) ≤ z ∧ z < jan1 (yearOf z + 1) := by
  simp only [yearOf, yEst, jan1]
  split_ifs <;> omega

/-- The year containing `z` is unique. -/
theorem yearOf_unique {y z : Int} (h1 : jan1 y ≤ z) (h2 : z < jan1 (y + 1)) :
    yearOf z = y := by
  rcases yearOf_spec z with ⟨s1, s2⟩
  by_contra hne
  rcases lt_or_gt_of_ne hne with hlt | hgt
  · exact absurd (jan1_mono (by omega : yearOf z + 1 ≤ y)) (by omega)
  · exact absurd (jan1_mono (by omega : y + 1 ≤ yearOf z)) (by omega)

theorem leapBit_bounds (y : Int) : 0 ≤ leapBit y ∧ leapBit y ≤ 1 := by
  simp only [leapBit]
  split_ifs <;> omega

theorem daysBeforeMonth_bounds {L m0 : Int} (hL0 : 0 ≤ L) (hL1 : L ≤ 1)
    (h0 : 0 ≤ m0) (h1 : m0 ≤ 11) :
    0 ≤ daysBeforeMonth L m0 ∧ daysBeforeMonth L m0 ≤ 334 + L := by
  simp only [daysBeforeMonth]
  split_ifs <;> omega

theorem monthStart_idx (y k : Int) (hk0 : 0 ≤ k) (hk : k ≤ 11) :
    monthStart (12 * y + k) = jan1 y + daysBeforeMonth (leapBit y) k := by
  simp only [monthStart]
  have h1 : (12 * y + k) / 12 = y := by omega
  have h2 : (12 * y + k) % 12 = k := by omega
  rw [h1, h2]

/-- Every month is between 28 and 31 days long. -/
theorem monthStart_succ_bounds (i : Int) :
    monthStart i + 28 ≤ monthStart (i + 1) ∧ monthStart (i + 1) ≤ monthStart i + 31 := by
  rcases leapBit_bounds (i / 12) with ⟨hL0, hL1⟩
  rcases leapBit_bounds ((i + 1) / 12) with ⟨hM0, hM1⟩
  by_cases hb : i % 12 = 11
  · have h12 : (i + 1) / 12 = i / 12 + 1 := by omega
    have h2 : (i + 1) % 12 = 0 := by omega
    have hsucc := jan1_succ (i / 12)
    simp only [monthStart, h12, h2, hb, daysBeforeMonth, leapBit] at *
    split_ifs at * <;> omega
  · have h12 : (i + 1) / 12 = i / 12 := by omega
    have h2 : (i + 1) % 12 = i % 12 + 1 := by omega
    have hm0 : 0 ≤ i % 12 := by omega
    have hm1 : i % 12 ≤ 10 := by omega
    simp only [monthStart, h12, h2, daysBeforeMonth] at *
    split_ifs <;> omega

/-- The first day of month `k` (0-based) of year `y` lies inside year `y`. -/
theorem monthStart_in_year (y k : Int) (hk0 : 0 ≤ k) (hk : k ≤ 11) :
    jan1 y ≤ monthStart (12 * y + k) ∧ monthStart (12 * y + k) < jan1 (y + 1) := by
  rcases leapBit_bounds y with ⟨hL0, hL1⟩
  rcases daysBeforeMonth_bounds hL0 hL1 hk0 hk with ⟨hd0, hd1⟩
  have hsucc := jan1_succ y
  rw [monthStart_idx y k hk0 hk]
  omega

/-- Reconstructing a day number from its civil components is the
identity: `new Date(getFullYear z, getMonth z, getDate z)` is `z`. -/
theorem mkDate_monthDayOf (z : Int) :
    mkDate (yearOf z) ((monthDayOf z).1 - 1) (monthDayOf z).2 = z := by
  rcases yearOf_spec z with ⟨hs1, hs2⟩
  rcases leapBit_bounds (yearOf z) with ⟨hL0, hL1⟩
  have hsucc := jan1_succ (yearOf z)
  have hdoy1 : z - jan1 (yearOf z) ≤ 364 + leapBit (yearOf z) := by omega
  simp only [monthDayOf, mkDate]
  split_ifs with h1 h2
  · have e : 12 * yearOf z + (1 - 1) = 12 * yearOf z + 0 := by ring
    rw [e, monthStart_idx (yearOf z) 0 (by omega) (by omega)]
    simp only [daysBeforeMonth]
    split_ifs <;> omega
  · have e : 12 * yearOf z + (2 - 1) = 12 * yearOf z + 1 := by ring
    rw [e, monthStart_idx (yearOf z) 1 (by omega) (by omega)]
    simp only [daysBeforeMonth]
    split_ifs <;> omega
  · set L := leapBit (yearOf z) with hLdef
    set md := z - jan1 (yearOf z) - 59 - L with hmd
    have hmd0 : 0 ≤ md := by omega
    have hmd1 : md ≤ 305 := by omega
    set mp := (5 * md + 2) / 153 with hmp
    have hmp0 : 0 ≤ mp := by omega
    have hmp1 : mp ≤ 9 := by omega
    have e : 12 * yearOf z + (mp + 3 - 1) = 12 * yearOf z + (mp + 2) := by ring
    rw [e, monthStart_idx (yearOf z) (mp + 2) (by omega) (by omega)]
    simp only [daysBeforeMonth]
    split_ifs <;> omega

/-- The civil-component key of a day number is injective. -/
theorem dayKey_injective : Function.Injective dayKey := by
  intro a b h
  simp only [dayKey, Prod.mk.injEq] at h
  have ha := mkDate_monthDayOf a
  have hb := mkDate_monthDayOf b
  rw [h.1, h.2.1, h.2.2] at ha
  exact ha.symm.trans hb

/-- Branch analysis of the month/day-of-month extraction, in terms of the
day-of-year `doy` of a day living `k` days into (0-based) month `m0`. -/
theorem monthDayOf_branches (L m0 k doy : Int) (hL0 : 0 ≤ L) (hL1 : L ≤ 1)
    (hm00 : 0 ≤ m0) (hm01 : m0 ≤ 11) (hk0 : 0 ≤ k)
    (hdoy : doy = daysBeforeMonth L m0 + k)
    (hub : doy < daysBeforeMonth L (m0 + 1) ∨ (m0 = 11 ∧ doy < 365 + L)) :
    ((if doy < 31 then ((1 : Int), doy + 1)
      else if doy < 59 + L then (2, doy - 30)
      else ((5 * (doy - 59 - L) + 2) / 153 + 3,
            (doy - 59 - L) - (153 * ((5 * (doy - 59 - L) + 2) / 153) + 2) / 5 + 1))
        : Int × Int)
      = (m0 + 1, k + 1) := by
  simp only [daysBeforeMonth] at hdoy hub
  interval_cases m0 <;> split_ifs <;> simp_all <;> omega

/-- Civil components of any day of month index `i` (day offset `k` from
the first of the month, still within the month). -/
theorem monthDayOf_monthStart_add (i k : Int) (hk0 : 0 ≤ k)
    (hk : monthStart i + k < monthStart (i + 1)) :
    yearOf (monthStart i + k) = i / 12 ∧
    (monthDayOf (monthStart i + k)).1 = i % 12 + 1 ∧
    (monthDayOf (monthStart i + k)).2 = k + 1 := by
  rcases leapBit_bounds (i / 12) with ⟨hL0, hL1⟩
  have hi : i = 12 * (i / 12) + i % 12 := by omega
  have hm0 : 0 ≤ i % 12 := by omega
  have hm1 : i % 12 ≤ 11 := by omega
  rcases monthStart_in_year (i / 12) (i % 12) hm0 hm1 with ⟨hin1, hin2⟩
  rw [← hi] at hin1 hin2
  have hsucc := jan1_succ (i / 12)
  -- the end of month `i` stays within year `i / 12`
  have hend : monthStart (i + 1) ≤ jan1 (i / 12 + 1) := by
    by_cases hb : i % 12 = 11
    · have h12 : (i + 1) / 12 = i / 12 + 1 := by omega
      have h2 : (i + 1) % 12 = 0 := by omega
      simp only [monthStart, h12, h2, daysBeforeMonth]
      split_ifs <;> omega
    · have h12 : (i + 1) / 12 = i / 12 := by omega
      have h2 : (i + 1) % 12 = i % 12 + 1 := by omega
      have hb0 : 0 ≤ i % 12 + 1 := by omega
      have hb1 : i % 12 + 1 ≤ 11 := by omega
      rcases daysBeforeMonth_bounds hL0 hL1 hb0 hb1 with ⟨hd0, hd1⟩
      simp only [monthStart, h12, h2] at *
      omega
  have hy : yearOf (monthStart i + k) = i / 12 :=
    yearOf_unique (by omega) (by omega)
  refine ⟨hy, ?_⟩
  have hms : monthStart i = jan1 (i / 12) + daysBeforeMonth (leapBit (i / 12)) (i % 12) := by
    conv_lhs => rw [hi]
    exact monthStart_idx (i / 12) (i % 12) hm0 hm1
  have hnext : monthStart (i + 1) = jan1 (i / 12) + daysBeforeMonth (leapBit (i / 12)) (i % 12 + 1) ∨
      (i % 12 = 11 ∧ monthStart (i + 1) = jan1 (i / 12 + 1)) := by
    by_cases hb : i % 12 = 11
    · refine Or.inr ⟨hb, ?_⟩
      have h12 : (i + 1) / 12 = i / 12 + 1 := by omega
      have h2 : (i + 1) % 12 = 0 := by omega
      simp only [monthStart, h12, h2, daysBeforeMonth]
      split_ifs <;> omega
    · refine Or.inl ?_
      have h12 : (i + 1) / 12 = i / 12 := by omega
      have h2 : (i + 1) % 12 = i % 12 + 1 := by omega
      simp only [monthStart, h12, h2]
  have hdoy : monthStart i + k - jan1 (i / 12) =
      daysBeforeMonth (leapBit (i / 12)) (i % 12) + k := by omega
  have hub : monthStart i + k - jan1 (i / 12) <
        daysBeforeMonth (leapBit (i / 12)) (i % 12 + 1) ∨
      (i % 12 = 11 ∧ monthStart i + k - jan1 (i / 12) < 365 + leapBit (i / 12)) := by
    rcases hnext with hnx | ⟨hb, hnx⟩
    · exact Or.inl (by omega)
    · exact Or.inr ⟨hb, by omega⟩
  have hbr := monthDayOf_branches (leapBit (i / 12)) (i % 12) k
    (monthStart i + k - jan1 (i / 12)) hL0 hL1 hm0 hm1 hk0 hdoy hub
  simp only [monthDayOf, hy]
  rw [hbr]
  exact ⟨rfl, rfl⟩

/-- Civil components of the first day of month index `i`. -/
theorem monthDayOf_monthStart (i : Int) :
    yearOf (monthStart i) = i / 12 ∧
    (monthDayOf (monthStart i)).1 = i % 12 + 1 ∧
    (monthDayOf (monthStart i)).2 = 1 := by
  have h := monthDayOf_monthStart_add i 0 (by omega)
    (by rcases monthStart_succ_bounds i with ⟨h1, _⟩; omega)
  rw [add_zero] at h
  exact ⟨h.1, h.2.1, by have := h.2.2; omega⟩

/-! ## Weekday interval lemmas -/

theorem getDay_bounds (z : Int) : 0 ≤ getDay z ∧ getDay z ≤ 6 := by
  simp only [getDay]
  omega

theorem getDay_succ (z : Int) : getDay (z + 1) = (getDay z + 1) % 7 := by
  simp only [getDay]
  omega

theorem floorWeek_bounds (a z : Int) : z - 6 ≤ floorWeek a z ∧ floorWeek a z ≤ z := by
  simp only [floorWeek, getDay]
  omega

theorem floorWeek_mono (a : Int) {z1 z2 : Int} (h : z1 ≤ z2) :
    floorWeek a z1 ≤ floorWeek a z2 := by
  simp only [floorWeek, getDay]
  omega

theorem weekCount_succ (a r z : Int) :
    weekCount a r (z + 1) = weekCount a r z ∨
    weekCount a r (z + 1) = weekCount a r z + 1 := by
  simp only [weekCount, floorWeek, getDay]
  omega

theorem weekCount_mono (a r : Int) {z1 z2 : Int} (h : z1 ≤ z2) :
    weekCount a r z1 ≤ weekCount a r z2 := by
  simp only [weekCount, floorWeek, getDay]
  omega

/-- Three weeks elapse over any 22-day (or longer) gap. -/
theorem weekCount_gap3 (a r : Int) {z1 z2 : Int} (h : z1 + 22 ≤ z2) :
    weekCount a r z1 + 3 ≤ weekCount a r z2 := by
  simp only [weekCount, floorWeek, getDay]
  omega

theorem getTimeInterval_bounds (f : Int) :
    0 ≤ getTimeInterval f ∧ getTimeInterval f ≤ 6 := by
  simp only [getTimeInterval]
  split_ifs <;> omega

theorem getTimeInterval_valid {f : Int} (h0 : 0 ≤ f) (h1 : f ≤ 6) :
    getTimeInterval f = f := by
  simp only [getTimeInterval]
  split_ifs <;> omega

/-- `getDayIndex` under a valid first day of week computes the modular
day index. -/
theorem getDayIndex_eq (z : Int) {f : Int} (hf0 : 0 ≤ f) (hf6 : f ≤ 6) :
    getDayIndex z f = some ((getDay z - f + 7) % 7) := by
  have hd0 : 0 ≤ getDay z := (getDay_bounds z).1
  have hd6 : getDay z ≤ 6 := (getDay_bounds z).2
  have key : ∀ b : Int, -6 ≤ b → b ≤ 6 →
      (jsSliceFrom jsDays b).head? = some ((b + 7) % 7) := by
    intro b h1 h2
    interval_cases b <;> decide
  exact key (getDay z - f) (by omega) (by omega)

/-- C1.  For every date and every `firstDayOfWeek` in `[0, 6]`,
`getDayIndex` returns `(nativeWeekday - firstDayOfWeek + 7) mod 7`; the
result lies in `[0, 6]`; and on the seven consecutive days starting at
a week-start date (a date whose native weekday equals
`firstDayOfWeek`) it returns `0, 1, 2, 3, 4, 5, 6` in order. -/
theorem getDayIndex_resolver (date f : Int) (hf0 : 0 ≤ f) (hf6 : f ≤ 6) :
    getDayIndex date f = some ((getDay date - f + 7) % 7) ∧
    0 ≤ (getDay date - f + 7) % 7 ∧ (getDay date - f + 7) % 7 ≤ 6 ∧
    (getDay date = f →
      ∀ k : Int, 0 ≤ k → k ≤ 6 → getDayIndex (date + k) f = some k) := by
  refine ⟨getDayIndex_eq date hf0 hf6, by omega, by omega, ?_⟩
  intro hw k hk0 hk6
  rw [getDayIndex_eq (date + k) hf0 hf6]
  have hd : getDay (date + k) = (getDay date + k) % 7 := by
    simp only [getDay]
    omega
  rw [hd, hw]
  congr 1
  omega

/-- Witness for C1: `firstDayOfWeek = 1` (Monday) at 2018-01-01 (day
17532, a Monday). -/
theorem getDayIndex_resolver_witness :
    ((0 : Int) ≤ 1 ∧ (1 : Int) ≤ 6) ∧
    (getDayIndex 17532 1 = some ((getDay 17532 - 1 + 7) % 7) ∧
     0 ≤ (getDay 17532 - 1 + 7) % 7 ∧ (getDay 17532 - 1 + 7) % 7 ≤ 6 ∧
     (getDay 17532 = 1 →
       ∀ k : Int, 0 ≤ k → k ≤ 6 → getDayIndex (17532 + k) 1 = some k)) :=
  ⟨⟨by decide, by decide⟩, getDayIndex_resolver 17532 1 (by decide) (by decide)⟩

/-- C10.  For every `firstDayOfWeek` outside the integers `0..6` the
switch falls through to its `default` branch: the selected week
interval is `timeSunday`, so all week counting (day and month week
offsets, and the per-year week ranges behind `maxWeeks`) behaves
exactly as for `firstDayOfWeek = 0`. -/
theorem getTimeInterval_out_of_range_default (f : Int)
    (hf : f < 0 ∨ 6 < f) :
    getTimeInterval f = 0 ∧
    getTimeInterval f = getTimeInterval 0 ∧
    (∀ r z : Int, weekCount (getTimeInterval f) r z = weekCount (getTimeInterval 0) r z) ∧
    (∀ lo hi : Int, weekRangeList (getTimeInterval f) lo hi
      = weekRangeList (getTimeInterval 0) lo hi) := by
  have h0 : getTimeInterval f = 0 := by
    simp only [getTimeInterval]
    split_ifs <;> omega
  have h0' : getTimeInterval 0 = 0 := by decide
  refine ⟨h0, by rw [h0, h0'], ?_, ?_⟩
  · intro r z
    rw [h0, h0']
  · intro lo hi
    rw [h0, h0']

/-- Witness for C10: `firstDayOfWeek = 9`. -/
theorem getTimeInterval_out_of_range_default_witness :
    ((9 : Int) < 0 ∨ (6 : Int) < 9) ∧
    (getTimeInterval 9 = 0 ∧
     getTimeInterval 9 = getTimeInterval 0 ∧
     (∀ r z : Int, weekCount (getTimeInterval 9) r z = weekCount (getTimeInterval 0) r z) ∧
     (∀ lo hi : Int, weekRangeList (getTimeInterval 9) lo hi
       = weekRangeList (getTimeInterval 0) lo hi)) :=
  ⟨by decide, getTimeInterval_out_of_range_default 9 (by decide)⟩

/-- C4.  The computed cell size is the minimum of the weeks-axis
candidate and the days-of-week-axis candidate (each dividing the
available space on its pixel axis by the cells needed there), and
switching the direction swaps which pixel axis (width or height)
carries the weeks axis. -/
theorem computeCellSize_min_fit (w h : ℚ) (yearRange : List Int)
    (ys ds mw : ℚ) (hyr : yearRange ≠ []) (hmw : 1 ≤ mw) :
    computeCellSize w h .horizontal yearRange ys ds mw
      = min (specWeeksFit w ds mw) (specDaysFit h ys ds yearRange.length) ∧
    computeCellSize w h .vertical yearRange ys ds mw
      = min (specWeeksFit h ds mw) (specDaysFit w ys ds yearRange.length) ∧
    computeCellSize w h .vertical yearRange ys ds mw
      = computeCellSize h w .horizontal yearRange ys ds mw := by
  unfold computeCellSize specWeeksFit specDaysFit
  exact ⟨rfl, min_comm _ _, min_comm _ _⟩

/-- Witness for C4: the spec's concrete scenario (800×200, one year,
spacing 30/2, 53 week columns). -/
theorem computeCellSize_min_fit_witness :
    (([(2018 : Int)] : List Int) ≠ [] ∧ (1 : ℚ) ≤ 53) ∧
    (computeCellSize 800 200 .horizontal [(2018 : Int)] 30 2 53
      = min (specWeeksFit 800 2 53) (specDaysFit 200 30 2 ([(2018 : Int)] : List Int).length) ∧
    computeCellSize 800 200 .vertical [(2018 : Int)] 30 2 53
      = min (specWeeksFit 200 2 53) (specDaysFit 800 30 2 ([(2018 : Int)] : List Int).length) ∧
    computeCellSize 800 200 .vertical [(2018 : Int)] 30 2 53
      = computeCellSize 200 800 .horizontal [(2018 : Int)] 30 2 53) :=
  ⟨⟨by decide, by decide⟩,
   computeCellSize_min_fit 800 200 [(2018 : Int)] 30 2 53 (by decide) (by decide)⟩

/-- C8.  `computeYearLegendPositions` with direction `horizontal` and
position `before` returns, for every year, an entry rotated by -90
whose `x` is `bbox.x - offset` and whose `y` is the vertical center of
the year's bounding box. -/
theorem computeYearLegendPositions_horizontal_before
    (years : List YearRec) (offset : ℚ) :
    computeYearLegendPositions years .horizontal .before offset
      = years.map (fun yr =>
          { year := yr.year, bbox := yr.bbox,
            x := yr.bbox.x - offset,
            y := yr.bbox.y + yr.bbox.height / 2,
            rotation := -90 }) := rfl

/-! ## The month end boundary (C2) -/

theorem monthEndBoundary_eq (i : Int) :
    monthEndBoundary (monthStart i) = monthStart (i + 1) - 1 := by
  rcases monthDayOf_monthStart i with ⟨hy, hm, _⟩
  simp only [monthEndBoundary, getMonth]
  rw [hy, hm]
  simp only [mkDate]
  rw [show 12 * (i / 12) + (i % 12 + 1 - 1 + 1) = i + 1 by omega]
  omega

/-- C2 (amended).  For every input month date (first of month), the
end-boundary day `t1 = new Date(getFullYear, getMonth + 1, 0)` — from
which `lastWeek` and `lastDay` are derived — is the **last day of the
input month**: the day immediately preceding the first day of the
following month, lying in the same year and month as the input date,
with day-of-month equal to the month's length. -/
theorem monthEndBoundary_is_last_day (i : Int) :
    monthEndBoundary (monthStart i) = monthStart (i + 1) - 1 ∧
    yearOf (monthEndBoundary (monthStart i)) = yearOf (monthStart i) ∧
    (monthDayOf (monthEndBoundary (monthStart i))).1 = (monthDayOf (monthStart i)).1 ∧
    (monthDayOf (monthEndBoundary (monthStart i))).2 = monthStart (i + 1) - monthStart i := by
  have he := monthEndBoundary_eq i
  have hlen := monthStart_succ_bounds i
  have h := monthDayOf_monthStart_add i (monthStart (i + 1) - 1 - monthStart i)
    (by omega) (by omega)
  rw [show monthStart i + (monthStart (i + 1) - 1 - monthStart i)
      = monthStart (i + 1) - 1 by omega] at h
  have h0 := monthDayOf_monthStart i
  rw [he]
  exact ⟨rfl, by rw [h.1, h0.1], by rw [h.2.1, h0.2.1], by have := h.2.2; omega⟩

/-- C2 counterexample: for the input month January 2018 (first day
2018-01-01 = day 17532), the computed `t1` is 2018-01-31 (day 17562),
not the first day of the following month 2018-02-01 (day 17563). -/
theorem monthEndBoundary_ne_next_month_first :
    monthEndBoundary (mkDate 2018 0 1) = 17562 ∧
    dayKey 17562 = (2018, 1, 31) ∧
    mkDate 2018 1 1 = 17563 ∧
    dayKey 17563 = (2018, 2, 1) ∧
    ¬ monthEndBoundary (mkDate 2018 0 1) = mkDate 2018 1 1 := by
  refine ⟨by decide, by decide, by decide, by decide, by decide⟩

/-! ## The data binder (C7, C9) -/

theorem bindFold_frame {K : Type} [DecidableEq K] (cs : ℚ → String)
    (data : List (DataRec K)) (d : DayRec K) :
    (data.foldl (bindStep cs) d).date = d.date ∧
    (data.foldl (bindStep cs) d).day = d.day ∧
    (data.foldl (bindStep cs) d).size = d.size ∧
    (data.foldl (bindStep cs) d).x = d.x ∧
    (data.foldl (bindStep cs) d).y = d.y := by
  induction data generalizing d with
  | nil => exact ⟨rfl, rfl, rfl, rfl, rfl⟩
  | cons r rest ih =>
      simp only [List.foldl_cons]
      have hs : (bindStep cs d r).date = d.date ∧ (bindStep cs d r).day = d.day ∧
          (bindStep cs d r).size = d.size ∧ (bindStep cs d r).x = d.x ∧
          (bindStep cs d r).y = d.y := by
        simp only [bindStep]
        split_ifs <;> exact ⟨rfl, rfl, rfl, rfl, rfl⟩
      have hr := ih (bindStep cs d r)
      exact ⟨hr.1.trans hs.1, hr.2.1.trans hs.2.1, hr.2.2.1.trans hs.2.2.1,
        hr.2.2.2.1.trans hs.2.2.2.1, hr.2.2.2.2.trans hs.2.2.2.2⟩

/-- The inner `data.forEach` of `bindDaysData` is last-write-wins: its
result is determined by the last matching data record, with all
non-overwritten fields kept from the initial record. -/
theorem bindFold_char {K : Type} [DecidableEq K] (cs : ℚ → String)
    (data : List (DataRec K)) (d : DayRec K) :
    data.foldl (bindStep cs) d =
      match lastDataFor data d.day with
      | some r => { date := d.date, day := d.day, size := d.size, x := d.x, y := d.y,
                    value := some r.value, color := some (cs r.value), data := some r }
      | none => d := by
  induction data using List.reverseRecOn with
  | nil => simp [lastDataFor]
  | append_singleton l r ih =>
      rw [List.foldl_append]
      simp only [List.foldl_cons, List.foldl_nil]
      unfold lastDataFor
      simp only [List.reverse_append, List.reverse_cons, List.reverse_nil,
        List.nil_append, List.singleton_append]
      have hf := bindFold_frame cs l d
      by_cases hr : r.day = d.day
      · rw [List.find?_cons_of_pos _ (by simpa using hr)]
        simp only [bindStep, hf.2.1, hr, if_pos]
        simp only [hf.1, hf.2.1, hf.2.2.1, hf.2.2.2.1, hf.2.2.2.2]
      · rw [List.find?_cons_of_neg _ (by simpa using hr)]
        have hstep : bindStep cs (l.foldl (bindStep cs) d) r = l.foldl (bindStep cs) d := by
          simp only [bindStep, hf.2.1]
          rw [if_neg hr]
        rw [hstep, ih]
        rfl

/-- `bindDaysData` maps every day to its last-write-wins binding. -/
theorem bindDaysData_char {K : Type} [DecidableEq K] (days : List (DayRec K))
    (data : List (DataRec K)) (cs : ℚ → String) (ec : String) :
    bindDaysData days data cs ec = days.map (fun day =>
      match lastDataFor data day.day with
      | some r => { date := day.date, day := day.day, size := day.size,
                    x := day.x, y := day.y, value := some r.value,
                    color := some (cs r.value), data := some r }
      | none => { day with color := some ec }) := by
  unfold bindDaysData
  apply List.map_congr_left
  intro day _
  rw [bindFold_char]

/-- C7.  Binding the same data twice in sequence yields exactly the
same day records as binding once (idempotence), and in both cases a
day's final `value`/`color`/`data` come from the **last** data record
in iteration order whose `day` key matches (last-write-wins), the
empty color being used when no record matches. -/
theorem bindDaysData_idempotent {K : Type} [DecidableEq K]
    (days : List (DayRec K)) (data : List (DataRec K))
    (cs : ℚ → String) (ec : String) :
    bindDaysData (bindDaysData days data cs ec) data cs ec
      = bindDaysData days data cs ec ∧
    bindDaysData days data cs ec = days.map (fun day =>
      match lastDataFor data day.day with
      | some r => { date := day.date, day := day.day, size := day.size,
                    x := day.x, y := day.y, value := some r.value,
                    color := some (cs r.value), data := some r }
      | none => { day with color := some ec }) := by
  refine ⟨?_, bindDaysData_char days data cs ec⟩
  rw [bindDaysData_char days data cs ec, bindDaysData_char, List.map_map]
  apply List.map_congr_left
  intro day _
  rcases hld : lastDataFor data day.day with _ | r
  · simp only [Function.comp_apply, hld]
  · simp only [Function.comp_apply, hld]

/-- C9.  After `bindDaysData`, a day that matches no data record gets
`color = emptyColor` while every other field — including any `value`
and `data` attached by an earlier binding — is left unchanged, so
rebinding with different data can leave stale `value`/`data` alongside
`color = emptyColor`. -/
theorem bindDaysData_unmatched {K : Type} [DecidableEq K]
    (days : List (DayRec K)) (data : List (DataRec K))
    (cs : ℚ → String) (ec : String) (i : Nat) (d : DayRec K)
    (hd : days.get? i = some d)
    (hnm : ∀ r ∈ data, ¬ r.day = d.day) :
    (bindDaysData days data cs ec).get? i = some { d with color := some ec } := by
  rw [bindDaysData_char, List.get?_map, hd]
  have hn : lastDataFor data d.day = none := by
    unfold lastDataFor
    apply List.find?_eq_none.mpr
    intro r hr
    simpa using hnm r (List.mem_reverse.mp hr)
  simp only [Option.map_some']
  rw [hn]

/-- Witness for C9: one previously-bound day (stale `value := 5`,
`data` attached), one non-matching data record. -/
theorem bindDaysData_unmatched_witness :
    (([(⟨0, 1, 1, 0, 0, some 5, some "old", some ⟨1, 5⟩⟩ : DayRec Int)].get? 0
        = some (⟨0, 1, 1, 0, 0, some 5, some "old", some ⟨1, 5⟩⟩ : DayRec Int)) ∧
      (∀ r ∈ [(⟨2, 3⟩ : DataRec Int)],
        ¬ r.day = (⟨0, 1, 1, 0, 0, some 5, some "old", some ⟨1, 5⟩⟩ : DayRec Int).day)) ∧
    (bindDaysData [(⟨0, 1, 1, 0, 0, some 5, some "old", some ⟨1, 5⟩⟩ : DayRec Int)]
        [(⟨2, 3⟩ : DataRec Int)] (fun _ => "x") "e").get? 0
      = some (⟨0, 1, 1, 0, 0, some 5, some "e", some ⟨1, 5⟩⟩ : DayRec Int) :=
  ⟨⟨by decide, by decide⟩,
    bindDaysData_unmatched
      [(⟨0, 1, 1, 0, 0, some 5, some "old", some ⟨1, 5⟩⟩ : DayRec Int)]
      [(⟨2, 3⟩ : DataRec Int)] (fun _ => "x") "e" 0
      (⟨0, 1, 1, 0, 0, some 5, some "old", some ⟨1, 5⟩⟩ : DayRec Int)
      (by decide) (by decide)⟩

/-! ## The memoization cache (C6) -/

theorem memoLookup_cons (c : Cache) (q : MonthParams) (r : Option MonthPB)
    (p : MonthParams) :
    memoLookup ((q, r) :: c) p = if q = p then some r else memoLookup c p := by
  unfold memoLookup
  rcases eq_or_ne q p with h | h
  · subst h
    simp [List.find?]
  · simp [List.find?, h]

/-- `memoMonthPathAndBBox` never changes the value stored at an
existing key: it only inserts on a miss. -/
theorem memoCall_preserves {c : Cache} {p q : MonthParams} {v : Option MonthPB}
    (h : memoLookup c p = some v) :
    memoLookup (memoMonthPathAndBBox c q).2 p = some v := by
  unfold memoMonthPathAndBBox
  cases hq : memoLookup c q with
  | some r => exact h
  | none =>
      simp only
      rw [memoLookup_cons]
      rcases eq_or_ne q p with rfl | hne
      · rw [hq] at h
        cases h
      · rw [if_neg hne]
        exact h

/-- After a `memoMonthPathAndBBox` call, the cache stores exactly the
value that was returned. -/
theorem memoCall_post (c : Cache) (p : MonthParams) :
    memoLookup (memoMonthPathAndBBox c p).2 p
      = some (memoMonthPathAndBBox c p).1 := by
  unfold memoMonthPathAndBBox
  cases hq : memoLookup c p with
  | some r => exact hq
  | none =>
      simp only
      rw [memoLookup_cons, if_pos rfl]

theorem mapMemo_preserves (ps : List MonthParams) {c : Cache} {p : MonthParams}
    {v : Option MonthPB} (h : memoLookup c p = some v) :
    memoLookup (mapMemo c ps).2 p = some v := by
  induction ps generalizing c with
  | nil => exact h
  | cons q rest ih =>
      simp only [mapMemo]
      exact ih (memoCall_preserves h)

/-- After running `mapMemo`, every parameter looks up to the result
that was just returned for it. -/
theorem mapMemo_recorded (c : Cache) (ps : List MonthParams) :
    List.Forall₂ (fun p r => memoLookup (mapMemo c ps).2 p = some r)
      ps (mapMemo c ps).1 := by
  induction ps generalizing c with
  | nil => exact List.Forall₂.nil
  | cons q rest ih =>
      simp only [mapMemo]
      exact List.Forall₂.cons
        (mapMemo_preserves rest (memoCall_post c q)) (ih _)

/-- Running `mapMemo` over parameters whose results are all already
cached returns the cached results and leaves the cache unchanged. -/
theorem mapMemo_replay {c : Cache} {ps : List MonthParams}
    {rs : List (Option MonthPB)}
    (h : List.Forall₂ (fun p r => memoLookup c p = some r) ps rs) :
    mapMemo c ps = (rs, c) := by
  induction h with
  | nil => rfl
  | @cons p r ps' rs' h1 h2 ih =>
      simp only [mapMemo, memoMonthPathAndBBox, h1, ih]

theorem yearsMemo_preserves (a : LayoutArgs) (ctx : LayoutCtx)
    (ys : List (Nat × Int)) {c : Cache} {p : MonthParams} {v : Option MonthPB}
    (h : memoLookup c p = some v) :
    memoLookup (yearsMemo a ctx c ys).2 p = some v := by
  induction ys generalizing c with
  | nil => exact h
  | cons iy rest ih =>
      simp only [yearsMemo]
      exact ih (mapMemo_preserves _ h)

theorem yearsMemo_recorded (a : LayoutArgs) (ctx : LayoutCtx) (c : Cache)
    (ys : List (Nat × Int)) :
    List.Forall₂ (fun iy rs =>
        List.Forall₂ (fun p r => memoLookup (yearsMemo a ctx c ys).2 p = some r)
          (monthParamsOfYear a ctx iy.1 iy.2) rs)
      ys (yearsMemo a ctx c ys).1 := by
  induction ys generalizing c with
  | nil => exact List.Forall₂.nil
  | cons iy rest ih =>
      simp only [yearsMemo]
      refine List.Forall₂.cons ?_ (ih _)
      exact (mapMemo_recorded c (monthParamsOfYear a ctx iy.1 iy.2)).imp
        (fun p r hp => yearsMemo_preserves a ctx rest hp)

theorem yearsMemo_replay (a : LayoutArgs) (ctx : LayoutCtx) {c : Cache}
    {ys : List (Nat × Int)} {rss : List (List (Option MonthPB))}
    (h : List.Forall₂ (fun iy rs =>
        List.Forall₂ (fun p r => memoLookup c p = some r)
          (monthParamsOfYear a ctx iy.1 iy.2) rs) ys rss) :
    yearsMemo a ctx c ys = (rss, c) := by
  induction h with
  | nil => rfl
  | @cons iy rs ys' rss' h1 h2 ih =>
      simp only [yearsMemo, mapMemo_replay h1, ih]

/-- Re-running the month loop on the cache it produced returns the
same grouped results and the same cache. -/
theorem yearsMemo_stable (a : LayoutArgs) (ctx : LayoutCtx) (c : Cache)
    (ys : List (Nat × Int)) :
    yearsMemo a ctx (yearsMemo a ctx c ys).2 ys
      = ((yearsMemo a ctx c ys).1, (yearsMemo a ctx c ys).2) :=
  yearsMemo_replay a ctx (yearsMemo_recorded a ctx c ys)

/-- C6.  `computeLayout` is deterministic across the memoization
cache: calling it twice with identical arguments — the second call
running against the cache state left by the first, thus exercising the
memoized `monthPathAndBBox` — produces an identical `Layout` (equal
`years`, `months` including paths and bounding boxes, `days`,
`cellSize`, `calendarWidth`, `calendarHeight`, `originX`, `originY`),
for every argument object and every starting cache state. -/
theorem computeLayoutMemo_deterministic (a : LayoutArgs) (c : Cache) :
    (computeLayoutMemo a (computeLayoutMemo a c).2).1
      = (computeLayoutMemo a c).1 := by
  unfold computeLayoutMemo
  cases h : layoutPrelude a with
  | none => rfl
  | some ctx =>
      simp only
      rw [yearsMemo_stable]

/-! ## Agreement of the memoized and memo-free layout -/

theorem memoCall_valid {c : Cache} (h : validCache c) (p : MonthParams) :
    (memoMonthPathAndBBox c p).1 = monthPathAndBBox p ∧
    validCache (memoMonthPathAndBBox c p).2 := by
  unfold memoMonthPathAndBBox
  cases hq : memoLookup c p with
  | some r =>
      refine ⟨?_, h⟩
      unfold memoLookup at hq
      cases hf : c.find? (fun e => decide (e.1 = p)) with
      | none => rw [hf] at hq; cases hq
      | some e =>
          rw [hf] at hq
          have he1 : e.1 = p := by simpa using List.find?_some hf
          have he2 := h e (List.mem_of_find?_eq_some hf)
          simp only [Option.map_some'] at hq
          cases hq
          rw [he2, he1]
  | none =>
      refine ⟨rfl, ?_⟩
      intro e he
      rcases List.mem_cons.mp he with rfl | hmem
      · rfl
      · exact h e hmem

theorem mapMemo_valid {c : Cache} (h : validCache c) (ps : List MonthParams) :
    (mapMemo c ps).1 = ps.map monthPathAndBBox ∧
    validCache (mapMemo c ps).2 := by
  induction ps generalizing c with
  | nil => exact ⟨rfl, h⟩
  | cons q rest ih =>
      simp only [mapMemo, List.map_cons]
      rcases memoCall_valid h q with ⟨h1, h2⟩
      rcases ih h2 with ⟨h3, h4⟩
      exact ⟨by rw [h1, h3], h4⟩

theorem yearsMemo_valid (a : LayoutArgs) (ctx : LayoutCtx) {c : Cache}
    (h : validCache c) (ys : List (Nat × Int)) :
    (yearsMemo a ctx c ys).1
      = ys.map (fun iy => (monthParamsOfYear a ctx iy.1 iy.2).map monthPathAndBBox) ∧
    validCache (yearsMemo a ctx c ys).2 := by
  induction ys generalizing c with
  | nil => exact ⟨rfl, h⟩
  | cons iy rest ih =>
      simp only [yearsMemo, List.map_cons]
      rcases mapMemo_valid h (monthParamsOfYear a ctx iy.1 iy.2) with ⟨h1, h2⟩
      rcases ih h2 with ⟨h3, h4⟩
      exact ⟨by rw [h1, h3], h4⟩

/-- On any cache satisfying the memo invariant (in particular the
initial empty cache), the cache-threaded layout agrees with the
memo-free `computeLayout`. -/
theorem computeLayoutMemo_fst (a : LayoutArgs) {c : Cache} (h : validCache c) :
    (computeLayoutMemo a c).1 = computeLayout a := by
  unfold computeLayoutMemo computeLayout
  cases hp : layoutPrelude a with
  | none => rfl
  | some ctx =>
      show (assembleLayout a ctx (yearsMemo a ctx c ctx.yearRange.enum).1 : Option Layout)
        = assembleLayout a ctx (ctx.yearRange.enum.map (fun iy =>
            (monthParamsOfYear a ctx iy.1 iy.2).map monthPathAndBBox))
      rw [(yearsMemo_valid a ctx h ctx.yearRange.enum).1]

theorem validCache_nil : validCache [] := by
  intro e he
  cases he

/-! ## Closed form of `computeLayout` under a valid first day of week -/

theorem optionList_map_some {α β : Type} {l : List α} {f : α → Option β} {g : α → β}
    (h : ∀ x ∈ l, f x = some (g x)) :
    optionList (l.map f) = some (l.map g) := by
  induction l with
  | nil => rfl
  | cons a t ih =>
      simp only [List.map_cons, optionList]
      rw [h a (List.mem_cons_self a t), ih (fun x hx => h x (List.mem_cons_of_mem a hx))]
      rfl

theorem zip_self_map {α β : Type} (l : List α) (g : α → β) :
    l.zip (l.map g) = l.map (fun x => (x, g x)) := by
  induction l with
  | nil => rfl
  | cons a t ih => simp only [List.map_cons, List.zip_cons_cons, ih]

theorem mkDate_jan1 (y : Int) : mkDate y 0 1 = jan1 y := by
  have h : monthStart (12 * y) = jan1 y := by
    rw [show 12 * y = 12 * y + 0 by ring,
      monthStart_idx y 0 (le_refl 0) (by norm_num)]
    simp [daysBeforeMonth]
  simp only [mkDate, add_zero, sub_self]
  omega

theorem ceilMonthIdx_monthStart (i : Int) : ceilMonthIdx (monthStart i) = i := by
  rcases monthDayOf_monthStart i with ⟨hy, hm, hd⟩
  simp only [ceilMonthIdx, hy, hm, hd, if_true]
  omega

/-- The months enumerated for one calendar year are its twelve month
starts. -/
theorem timeMonths_year (y : Int) :
    timeMonths (mkDate y 0 1) (mkDate (y + 1) 0 1)
      = (List.range 12).map (fun (j : Nat) => monthStart (12 * y + (j : Int))) := by
  have h0 : mkDate y 0 1 = monthStart (12 * y) := by
    rw [mkDate_jan1]
    rw [show 12 * y = 12 * y + 0 by ring,
      monthStart_idx y 0 (le_refl 0) (by norm_num)]
    simp [daysBeforeMonth]
  have h1 : mkDate (y + 1) 0 1 = monthStart (12 * (y + 1)) := by
    rw [mkDate_jan1]
    rw [show 12 * (y + 1) = 12 * (y + 1) + 0 by ring,
      monthStart_idx (y + 1) 0 (le_refl 0) (by norm_num)]
    simp [daysBeforeMonth]
  unfold timeMonths
  rw [h0, h1, ceilMonthIdx_monthStart, ceilMonthIdx_monthStart,
    show 12 * (y + 1) - 12 * y = 12 by ring]
  rfl

/-- `monthPathAndBBox` under a valid first day of week, in closed
form. -/
theorem monthPathAndBBox_eq {f : Int} (hf0 : 0 ≤ f) (hf6 : f ≤ 6)
    (p : MonthParams) (hp : p.firstDayOfWeek = f) :
    monthPathAndBBox p = some (monthPBcore p
      (dayIndexT p.date f) (dayIndexT (monthEndBoundary p.date) f)) := by
  unfold monthPathAndBBox
  rw [hp, getDayIndex_eq _ hf0 hf6, getDayIndex_eq _ hf0 hf6]
  rfl

theorem dayRecordsOfYear_eq (a : LayoutArgs) (ctx : LayoutCtx)
    (hf0 : 0 ≤ a.firstDayOfWeek) (hf6 : a.firstDayOfWeek ≤ 6)
    (i : Nat) (year : Int) :
    dayRecordsOfYear a ctx i year
      = some ((timeDays (mkDate year 0 1) (mkDate (year + 1) 0 1)).map
          (dayRecT a ctx i)) := by
  unfold dayRecordsOfYear
  rcases hdir : a.direction with _ | _ <;>
  · simp only [hdir]
    apply optionList_map_some
    intro z hz
    simp only [cellPositionHorizontal, cellPositionVertical,
      getDayIndex_eq z hf0 hf6, Option.map_some']
    simp only [dayRecT, hdir, dayIndexT, weekOfYearT]

theorem monthRecordsOfYear_eq (a : LayoutArgs) (ctx : LayoutCtx)
    (hf0 : 0 ≤ a.firstDayOfWeek) (hf6 : a.firstDayOfWeek ≤ 6)
    (i : Nat) (year : Int) :
    monthRecordsOfYear (timeMonths (mkDate year 0 1) (mkDate (year + 1) 0 1))
        ((monthParamsOfYear a ctx i year).map monthPathAndBBox)
      = some ((List.range 12).map (monthRecT a ctx i year)) := by
  unfold monthRecordsOfYear monthParamsOfYear
  rw [timeMonths_year, List.map_map, List.map_map, List.zip_map', List.map_map]
  apply optionList_map_some
  intro j hj
  simp only [Function.comp_apply]
  rw [monthPathAndBBox_eq hf0 hf6 _ rfl]
  simp only [Option.map_some']
  rfl

theorem yearRecordOf_eq (a : LayoutArgs) (ctx : LayoutCtx) (i : Nat) (year : Int) :
    yearRecordOf year ((List.range 12).map (monthRecT a ctx i year))
      = some (yearRecT a ctx i year) := by
  have hr : List.range 12 = [0, 1, 2, 3, 4, 5, 6, 7, 8, 9, 10, 11] := by decide
  rw [hr]
  rfl

/-- Closed form of `computeLayout` under a valid first day of week:
the layout is built year by year from `dayRecT`, `monthRecT` and
`yearRecT`. -/
theorem computeLayout_eq (a : LayoutArgs) (ctx : LayoutCtx)
    (hf0 : 0 ≤ a.firstDayOfWeek) (hf6 : a.firstDayOfWeek ≤ 6)
    (hpre : layoutPrelude a = some ctx) :
    computeLayout a = some
      { years := ctx.yearRange.enum.map (fun iy => yearRecT a ctx iy.1 iy.2),
        months := (ctx.yearRange.enum.map (fun iy =>
          (List.range 12).map (monthRecT a ctx iy.1 iy.2))).flatten,
        days := (ctx.yearRange.enum.map (fun iy =>
          (timeDays (mkDate iy.2 0 1) (mkDate (iy.2 + 1) 0 1)).map
            (dayRecT a ctx iy.1))).flatten,
        cellSize := ctx.cellSize, calendarWidth := ctx.calendarWidth,
        calendarHeight := ctx.calendarHeight, originX := ctx.originX,
        originY := ctx.originY } := by
  unfold computeLayout
  rw [hpre]
  show assembleLayout a ctx (ctx.yearRange.enum.map (fun iy =>
      (monthParamsOfYear a ctx iy.1 iy.2).map monthPathAndBBox)) = _
  unfold assembleLayout
  rw [zip_self_map, List.map_map]
  rw [optionList_map_some (g := fun iy =>
      ((timeDays (mkDate iy.2 0 1) (mkDate (iy.2 + 1) 0 1)).map (dayRecT a ctx iy.1),
       (List.range 12).map (monthRecT a ctx iy.1 iy.2),
       yearRecT a ctx iy.1 iy.2))
    (by
      intro iy _
      simp only [Function.comp_apply, Option.bind_eq_bind',
        dayRecordsOfYear_eq a ctx hf0 hf6 iy.1 iy.2,
        monthRecordsOfYear_eq a ctx hf0 hf6 iy.1 iy.2,
        yearRecordOf_eq a ctx iy.1 iy.2, Option.some_bind']
      rfl)]
  simp only [Option.bind_eq_bind', Option.some_bind', List.map_map]
  rfl

/-! ## Day keys and day count (C5) -/

theorem dayRecT_day (a : LayoutArgs) (ctx : LayoutCtx) (i : Nat) (z : Int) :
    (dayRecT a ctx i z).day = dayKey z := by
  unfold dayRecT
  cases a.direction <;> rfl

theorem timeDays_mem {lo hi z : Int} (h : z ∈ timeDays lo hi) :
    lo ≤ z ∧ z < hi := by
  unfold timeDays at h
  rcases List.mem_map.mp h with ⟨n, hn, rfl⟩
  have := List.mem_range.mp hn
  omega

theorem timeDays_nodup (lo hi : Int) : (timeDays lo hi).Nodup := by
  unfold timeDays
  refine List.Nodup.map ?_ (List.nodup_range _)
  intro m n h
  have h2 : lo + (m : Int) = lo + (n : Int) := h
  omega

theorem timeDays_length (lo hi : Int) : (timeDays lo hi).length = (hi - lo).toNat := by
  unfold timeDays
  simp

theorem yearOf_mono {z1 z2 : Int} (h : z1 ≤ z2) : yearOf z1 ≤ yearOf z2 := by
  by_contra hc
  push_neg at hc
  rcases yearOf_spec z1 with ⟨a1, b1⟩
  rcases yearOf_spec z2 with ⟨a2, b2⟩
  have := jan1_mono (show yearOf z2 + 1 ≤ yearOf z1 by omega)
  omega

theorem enum_map_snd_fun {α β : Type} (l : List α) (F : α → β) :
    l.enum.map (fun iy => F iy.2) = l.map F := by
  have h : (fun iy : Nat × α => F iy.2) = F ∘ Prod.snd := rfl
  rw [h, ← List.map_map, List.enum_map_snd]

theorem layoutPrelude_yearRange (a : LayoutArgs) (ctx : LayoutCtx)
    (h : layoutPrelude a = some ctx) :
    ctx.yearRange = lodashRange (yearOf a.fromDate) (yearOf a.toDate + 1) := by
  simp only [layoutPrelude] at h
  rcases hmx : ((lodashRange (yearOf a.fromDate) (yearOf a.toDate + 1)).map
      (fun year => ((weekRangeList (getTimeInterval a.firstDayOfWeek)
        (mkDate year 0 1) (mkDate (year + 1) 0 1)).length : Int))).max? with _ | mx
  · rw [hmx] at h
    cases h
  · rw [hmx] at h
    rw [Option.map_some'] at h
    cases h
    rfl

theorem sum_jan1_lengths (y0 : Int) : ∀ n : Nat,
    ((List.range n).map (fun (k : Nat) =>
        (jan1 (y0 + (k : Int) + 1) - jan1 (y0 + (k : Int))).toNat)).sum
      = (jan1 (y0 + (n : Int)) - jan1 y0).toNat
  | 0 => by simp
  | (m + 1) => by
      rw [List.range_succ, List.map_append, List.sum_append, sum_jan1_lengths y0 m]
      have h1 : jan1 y0 ≤ jan1 (y0 + (m : Int)) := jan1_mono (by omega)
      have h2 : jan1 (y0 + (m : Int)) ≤ jan1 (y0 + (m : Int) + 1) := jan1_mono (by omega)
      have h3 : (y0 + ((m + 1 : Nat) : Int)) = y0 + (m : Int) + 1 := by
        push_cast
        ring
      rw [h3]
      simp only [List.map_cons, List.map_nil, List.sum_cons, List.sum_nil]
      omega

/-- Every day generated for calendar year `y` has `y` as the year
component of its key. -/
theorem dayKey_fst_of_mem {y z : Int}
    (h : z ∈ timeDays (jan1 y) (jan1 (y + 1))) : (dayKey z).1 = y := by
  rcases timeDays_mem h with ⟨h1, h2⟩
  exact yearOf_unique h1 h2

/-- C5 (amended).  Under a valid first day of week and `from ≤ to`,
every day record of the layout has a unique day key, and the number of
day records is the number of calendar days in the **full calendar
years** from `from`'s year through `to`'s year (the builder generates
whole years, not the sub-range `[from, to)`). -/
theorem computeLayout_unique_keys_count (a : LayoutArgs) (L : Layout)
    (hf0 : 0 ≤ a.firstDayOfWeek) (hf6 : a.firstDayOfWeek ≤ 6)
    (hft : a.fromDate ≤ a.toDate)
    (hL : computeLayout a = some L) :
    (L.days.map (fun d => d.day)).Nodup ∧
    L.days.length = (jan1 (yearOf a.toDate + 1) - jan1 (yearOf a.fromDate)).toNat := by
  rcases hpre : layoutPrelude a with _ | ctx
  · unfold computeLayout at hL
    rw [hpre] at hL
    cases hL
  rw [computeLayout_eq a ctx hf0 hf6 hpre] at hL
  cases hL
  have hY : yearOf a.fromDate ≤ yearOf a.toDate := yearOf_mono hft
  have hyr : ctx.yearRange
      = (List.range (yearOf a.toDate + 1 - yearOf a.fromDate).toNat).map
          (fun (n : Nat) => yearOf a.fromDate + (n : Int)) := by
    rw [layoutPrelude_yearRange a ctx hpre]
    unfold lodashRange
    rw [if_pos (by omega)]
  -- reshape the days into per-year day lists
  have hdays : (ctx.yearRange.enum.map (fun iy =>
      (timeDays (mkDate iy.2 0 1) (mkDate (iy.2 + 1) 0 1)).map
        (dayRecT a ctx iy.1))).flatten.map (fun d => d.day)
      = (ctx.yearRange.map (fun y =>
          (timeDays (jan1 y) (jan1 (y + 1))).map dayKey)).flatten := by
    rw [List.map_flatten, List.map_map]
    congr 1
    rw [show ((List.map fun d => d.day) ∘ fun iy : Nat × Int =>
        (timeDays (mkDate iy.2 0 1) (mkDate (iy.2 + 1) 0 1)).map (dayRecT a ctx iy.1))
      = (fun iy : Nat × Int => ((timeDays (mkDate iy.2 0 1) (mkDate (iy.2 + 1) 0 1)).map
          (dayRecT a ctx iy.1)).map (fun d => d.day)) from rfl]
    have hinner : ∀ iy : Nat × Int,
        ((timeDays (mkDate iy.2 0 1) (mkDate (iy.2 + 1) 0 1)).map
          (dayRecT a ctx iy.1)).map (fun d => d.day)
        = (timeDays (jan1 iy.2) (jan1 (iy.2 + 1))).map dayKey := by
      intro iy
      rw [List.map_map, mkDate_jan1, mkDate_jan1]
      apply List.map_congr_left
      intro z _
      exact dayRecT_day a ctx iy.1 z
    calc ctx.yearRange.enum.map (fun iy =>
          ((timeDays (mkDate iy.2 0 1) (mkDate (iy.2 + 1) 0 1)).map
            (dayRecT a ctx iy.1)).map (fun d => d.day))
        = ctx.yearRange.enum.map (fun iy =>
            (timeDays (jan1 iy.2) (jan1 (iy.2 + 1))).map dayKey) := by
          apply List.map_congr_left
          intro iy _
          exact hinner iy
      _ = ctx.yearRange.map (fun y => (timeDays (jan1 y) (jan1 (y + 1))).map dayKey) :=
          enum_map_snd_fun ctx.yearRange
            (fun y => (timeDays (jan1 y) (jan1 (y + 1))).map dayKey)
  constructor
  · show ((ctx.yearRange.enum.map (fun iy =>
      (timeDays (mkDate iy.2 0 1) (mkDate (iy.2 + 1) 0 1)).map
        (dayRecT a ctx iy.1))).flatten.map (fun d => d.day)).Nodup
    rw [hdays, List.nodup_flatten]
    constructor
    · intro l hl
      rcases List.mem_map.mp hl with ⟨y, _, rfl⟩
      exact List.Nodup.map dayKey_injective (timeDays_nodup _ _)
    · rw [hyr, List.map_map, List.pairwise_map]
      refine (List.pairwise_lt_range _).imp ?_
      intro k1 k2 hk
      intro x hx1 hx2
      simp only [Function.comp_apply] at hx1 hx2
      rcases List.mem_map.mp hx1 with ⟨z1, hz1, rfl⟩
      rcases List.mem_map.mp hx2 with ⟨z2, hz2, hxz2⟩
      have e1 := dayKey_fst_of_mem hz1
      have e2 := dayKey_fst_of_mem hz2
      rw [hxz2] at e2
      omega
  · show ((ctx.yearRange.enum.map (fun iy =>
      (timeDays (mkDate iy.2 0 1) (mkDate (iy.2 + 1) 0 1)).map
        (dayRecT a ctx iy.1))).flatten).length
      = (jan1 (yearOf a.toDate + 1) - jan1 (yearOf a.fromDate)).toNat
    rw [List.length_flatten, List.map_map]
    have hlen : ∀ iy : Nat × Int,
        (List.length ∘ fun iy : Nat × Int =>
          (timeDays (mkDate iy.2 0 1) (mkDate (iy.2 + 1) 0 1)).map
            (dayRecT a ctx iy.1)) iy
        = (jan1 (iy.2 + 1) - jan1 iy.2).toNat := by
      intro iy
      simp only [Function.comp_apply, List.length_map, mkDate_jan1, timeDays_length]
    rw [List.map_congr_left (fun iy _ => hlen iy),
      enum_map_snd_fun ctx.yearRange (fun y => (jan1 (y + 1) - jan1 y).toNat), hyr,
      List.map_map]
    have := sum_jan1_lengths (yearOf a.fromDate)
      (yearOf a.toDate + 1 - yearOf a.fromDate).toNat
    rw [show ((fun y => (jan1 (y + 1) - jan1 y).toNat) ∘
        fun (n : Nat) => yearOf a.fromDate + (n : Int))
      = (fun (k : Nat) => (jan1 (yearOf a.fromDate + (k : Int) + 1)
          - jan1 (yearOf a.fromDate + (k : Int))).toNat) from rfl]
    have harg : yearOf a.fromDate
        + ((yearOf a.toDate + 1 - yearOf a.fromDate).toNat : Int)
        = yearOf a.toDate + 1 := by omega
    rw [this, harg]

/-- Witness for C5 (amended): the 2018 scenario — 365 day records, all
keys distinct. -/
theorem computeLayout_unique_keys_count_witness :
    ((0 : Int) ≤ args2018.firstDayOfWeek ∧ args2018.firstDayOfWeek ≤ 6 ∧
      args2018.fromDate ≤ args2018.toDate) ∧
    ((((computeLayout args2018).getD ⟨[], [], [], 0, 0, 0, 0, 0⟩).days.map
        (fun d => d.day)).Nodup ∧
      ((computeLayout args2018).getD ⟨[], [], [], 0, 0, 0, 0, 0⟩).days.length
        = (jan1 (yearOf args2018.toDate + 1) - jan1 (yearOf args2018.fromDate)).toNat) :=
  ⟨⟨by decide, by decide, by decide⟩,
    computeLayout_unique_keys_count args2018
      ((computeLayout args2018).getD ⟨[], [], [], 0, 0, 0, 0, 0⟩)
      (by decide) (by decide) (by decide) (by rfl)⟩

/-- C5 counterexample: for `from = 2018-03-01`, `to = 2018-03-05` the
builder produces 365 day records — the whole of 2018 — although only 4
calendar days separate `from` and `to` (5 counting inclusively). -/
theorem computeLayout_count_counterexample :
    (computeLayout argsMarch).map (fun l => l.days.length) = some 365 ∧
    argsMarch.toDate - argsMarch.fromDate = 4 ∧
    (365 : Nat) ≠ 4 ∧ (365 : Nat) ≠ 5 := by
  refine ⟨by decide, by decide, by decide, by decide⟩

/-! ## Month bounding boxes (C3) -/

theorem monthStart_mono {i i' : Int} (h : i ≤ i') : monthStart i ≤ monthStart i' := by
  have key : ∀ n : Nat, monthStart i ≤ monthStart (i + (n : Int)) := by
    intro n
    induction n with
    | zero => simp
    | succ m ih =>
        have hs := (monthStart_succ_bounds (i + (m : Int))).1
        have hc : i + ((m + 1 : Nat) : Int) = i + (m : Int) + 1 := by push_cast; ring
        rw [hc]
        omega
  have hn : i' = i + (((i' - i).toNat : Nat) : Int) := by omega
  rw [hn]
  exact key _

theorem monthStart_12mul (y : Int) : monthStart (12 * y) = jan1 y := by
  rw [show 12 * y = 12 * y + 0 by ring,
    monthStart_idx y 0 (le_refl 0) (by norm_num)]
  simp [daysBeforeMonth]

theorem timeYear_monthStart (y : Int) (j : Nat) (hj : j < 12) :
    timeYear (monthStart (12 * y + (j : Int))) = jan1 y := by
  unfold timeYear
  rcases monthDayOf_monthStart (12 * y + (j : Int)) with ⟨hy, _, _⟩
  rw [hy, show (12 * y + (j : Int)) / 12 = y by omega]

theorem timeYear_monthEnd (y : Int) (j : Nat) (hj : j < 12) :
    timeYear (monthEndBoundary (monthStart (12 * y + (j : Int)))) = jan1 y := by
  rw [monthEndBoundary_eq]
  unfold timeYear
  have hb := monthStart_succ_bounds (12 * y + (j : Int))
  have hin1 := (monthStart_in_year y (j : Int) (by omega) (by omega)).1
  have hin2 : monthStart (12 * y + (j : Int) + 1) ≤ jan1 (y + 1) := by
    rcases Nat.lt_or_ge j 11 with hj10 | hj11
    · have := (monthStart_in_year y ((j : Int) + 1) (by omega) (by omega)).2
      rw [show 12 * y + ((j : Int) + 1) = 12 * y + (j : Int) + 1 by ring] at this
      omega
    · have hj' : j = 11 := by omega
      subst hj'
      have heq : monthStart (12 * y + ((11 : Nat) : Int) + 1) = jan1 (y + 1) := by
        rw [show 12 * y + ((11 : Nat) : Int) + 1 = 12 * (y + 1) by push_cast; ring,
          monthStart_12mul]
      omega
  rw [yearOf_unique (show jan1 y ≤ monthStart (12 * y + (j : Int) + 1) - 1 by omega)
    (show monthStart (12 * y + (j : Int) + 1) - 1 < jan1 (y + 1) by omega)]

theorem monthRecT_fields (a : LayoutArgs) (ctx : LayoutCtx) (i : Nat) (year : Int)
    (j : Nat) (hj : j < 12) :
    (monthRecT a ctx i year j).year = year ∧
    (monthRecT a ctx i year j).month = (j : Int) := by
  rcases monthDayOf_monthStart (12 * year + (j : Int)) with ⟨hy, hm, _⟩
  constructor
  · show yearOf (monthStart (12 * year + (j : Int))) = year
    rw [hy]
    omega
  · show getMonth (monthStart (12 * year + (j : Int))) = (j : Int)
    unfold getMonth
    rw [hm]
    omega

theorem monthRecT_bbox_horizontal (a : LayoutArgs) (ctx : LayoutCtx)
    (hdir : a.direction = .horizontal) (i : Nat) (y : Int) (j : Nat) (hj : j < 12) :
    (monthRecT a ctx i y j).bbox.x
      = ctx.originX + (weekCount (getTimeInterval a.firstDayOfWeek) (jan1 y)
          (monthStart (12 * y + (j : Int))) : ℚ) * (ctx.cellSize + a.daySpacing) ∧
    (monthRecT a ctx i y j).bbox.x + (monthRecT a ctx i y j).bbox.width
      = ctx.originX + ((weekCount (getTimeInterval a.firstDayOfWeek) (jan1 y)
          (monthStart (12 * y + (j : Int) + 1) - 1) : ℚ) + 1)
            * (ctx.cellSize + a.daySpacing) ∧
    (monthRecT a ctx i y j).bbox.y
      = ctx.originY + ((i : Int) : ℚ)
          * (7 * (ctx.cellSize + a.daySpacing) + a.yearSpacing) ∧
    (monthRecT a ctx i y j).bbox.height = 7 * (ctx.cellSize + a.daySpacing) := by
  simp only [monthRecT, monthPBcore, monthParamT, hdir]
  rw [timeYear_monthEnd y j hj, timeYear_monthStart y j hj, monthEndBoundary_eq]
  refine ⟨?_, ?_, ?_, ?_⟩ <;> first | trivial | rfl | ring

theorem monthRecT_bbox_vertical (a : LayoutArgs) (ctx : LayoutCtx)
    (hdir : a.direction = .vertical) (i : Nat) (y : Int) (j : Nat) (hj : j < 12) :
    (monthRecT a ctx i y j).bbox.y
      = ctx.originY + (weekCount (getTimeInterval a.firstDayOfWeek) (jan1 y)
          (monthStart (12 * y + (j : Int))) : ℚ) * (ctx.cellSize + a.daySpacing) ∧
    (monthRecT a ctx i y j).bbox.y + (monthRecT a ctx i y j).bbox.height
      = ctx.originY + ((weekCount (getTimeInterval a.firstDayOfWeek) (jan1 y)
          (monthStart (12 * y + (j : Int) + 1) - 1) : ℚ) + 1)
            * (ctx.cellSize + a.daySpacing) ∧
    (monthRecT a ctx i y j).bbox.x
      = ctx.originX + ((i : Int) : ℚ)
          * (7 * (ctx.cellSize + a.daySpacing) + a.yearSpacing) ∧
    (monthRecT a ctx i y j).bbox.width = 7 * (ctx.cellSize + a.daySpacing) := by
  simp only [monthRecT, monthPBcore, monthParamT, hdir]
  rw [timeYear_monthEnd y j hj, timeYear_monthStart y j hj, monthEndBoundary_eq]
  refine ⟨?_, ?_, ?_, ?_⟩ <;> first | trivial | rfl | ring

theorem fw_succ (f y j : Int) :
    weekCount f (jan1 y) (monthStart (12 * y + j + 1))
      = weekCount f (jan1 y) (monthStart (12 * y + j + 1) - 1) ∨
    weekCount f (jan1 y) (monthStart (12 * y + j + 1))
      = weekCount f (jan1 y) (monthStart (12 * y + j + 1) - 1) + 1 := by
  have h := weekCount_succ f (jan1 y) (monthStart (12 * y + j + 1) - 1)
  rw [sub_add_cancel] at h
  exact h

theorem lw_gap (f y j1 j2 : Int) (h : j1 + 2 ≤ j2) :
    weekCount f (jan1 y) (monthStart (12 * y + j1 + 1) - 1) + 3
      ≤ weekCount f (jan1 y) (monthStart (12 * y + j2)) := by
  have h1 := (monthStart_succ_bounds (12 * y + j1 + 1)).1
  have h2 : monthStart (12 * y + j1 + 1 + 1) ≤ monthStart (12 * y + j2) :=
    monthStart_mono (by omega)
  exact weekCount_gap3 f (jan1 y) (by omega)

theorem band_sep (o B c1 c2 H : ℚ) (hB : H ≤ B) (hH : 0 ≤ H) (h : c1 + 1 ≤ c2) :
    o + c1 * B + H ≤ o + c2 * B := by
  nlinarith [mul_le_mul_of_nonneg_right h (le_trans hH hB)]

theorem week_sep (o cp : ℚ) (w1 w2 : Int) (hcp : 0 ≤ cp) (h : w1 + 1 ≤ w2) :
    o + ((w1 : ℚ) + 1) * cp ≤ o + (w2 : ℚ) * cp := by
  have hq : (w1 : ℚ) + 1 ≤ (w2 : ℚ) := by exact_mod_cast h
  nlinarith [mul_le_mul_of_nonneg_right hq hcp]

theorem computeLayout_some_prelude (a : LayoutArgs) (L : Layout)
    (hL : computeLayout a = some L) : ∃ ctx, layoutPrelude a = some ctx := by
  rcases hpre : layoutPrelude a with _ | ctx
  · unfold computeLayout at hL
    rw [hpre] at hL
    cases hL
  · exact ⟨ctx, rfl⟩

theorem computeLayout_months_mem (a : LayoutArgs) (ctx : LayoutCtx) (L : Layout)
    (hf0 : 0 ≤ a.firstDayOfWeek) (hf6 : a.firstDayOfWeek ≤ 6)
    (hY : yearOf a.fromDate ≤ yearOf a.toDate)
    (hpre : layoutPrelude a = some ctx) (hL : computeLayout a = some L)
    {m : MonthRec} (hm : m ∈ L.months) :
    ∃ i j : Nat, j < 12 ∧
      m = monthRecT a ctx i (yearOf a.fromDate + (i : Int)) j := by
  rw [computeLayout_eq a ctx hf0 hf6 hpre] at hL
  cases hL
  have hm' : m ∈ (ctx.yearRange.enum.map (fun iy =>
      (List.range 12).map (monthRecT a ctx iy.1 iy.2))).flatten := hm
  rw [List.mem_flatten] at hm'
  obtain ⟨l, hl, hml⟩ := hm'
  rw [List.mem_map] at hl
  obtain ⟨⟨i, y⟩, hiy, rfl⟩ := hl
  rw [List.mem_map] at hml
  obtain ⟨j, hj, rfl⟩ := hml
  rw [List.mem_range] at hj
  refine ⟨i, j, hj, ?_⟩
  have hyv : y = yearOf a.fromDate + (i : Int) := by
    rw [layoutPrelude_yearRange a ctx hpre] at hiy
    unfold lodashRange at hiy
    rw [if_pos (by omega)] at hiy
    rw [List.mk_mem_enum_iff_getElem?] at hiy
    rw [List.getElem?_map] at hiy
    rcases Nat.lt_or_ge i (yearOf a.toDate + 1 - yearOf a.fromDate).toNat with hi | hi
    · rw [List.getElem?_range hi] at hiy
      rw [Option.map_some'] at hiy
      exact (Option.some.inj hiy).symm
    · rw [List.getElem?_eq_none (by simpa using hi)] at hiy
      cases hiy
  rw [hyv]

/-- C3 (amended): in every layout produced by `computeLayout` (with a
valid `firstDayOfWeek`, `from ≤ to`, non-negative week-column pitch
`cellSize + daySpacing` and non-negative `yearSpacing`), the bounding
boxes of two Month records from different years never overlap, and the
bounding boxes of two same-year Month records whose month indices differ
by at least two never overlap; for consecutive months of the same year,
the far edge of the earlier month along the week axis either coincides
with the near edge of the later month (months adjacent) or exceeds it by
exactly one week column `cellSize + daySpacing` (months share their
transition week, and their boxes overlap in that column).  The original
claim's unconditional non-overlap and exact adjacency both fail — see
the counterexample. -/
theorem computeLayout_month_bbox_separation (a : LayoutArgs) (L : Layout)
    (hL : computeLayout a = some L)
    (hf0 : 0 ≤ a.firstDayOfWeek) (hf6 : a.firstDayOfWeek ≤ 6)
    (hft : a.fromDate ≤ a.toDate)
    (hcp : 0 ≤ L.cellSize + a.daySpacing) (hys : 0 ≤ a.yearSpacing)
    (m1 m2 : MonthRec) (hm1 : m1 ∈ L.months) (hm2 : m2 ∈ L.months) :
    (m1.year ≠ m2.year → ¬ bboxOverlap m1.bbox m2.bbox) ∧
    (m1.year = m2.year → m1.month + 2 ≤ m2.month → ¬ bboxOverlap m1.bbox m2.bbox) ∧
    (m1.year = m2.year → m2.month = m1.month + 1 →
      weekAxisFar a.direction m1.bbox = weekAxisNear a.direction m2.bbox ∨
      weekAxisFar a.direction m1.bbox
        = weekAxisNear a.direction m2.bbox + (L.cellSize + a.daySpacing)) := by
  obtain ⟨ctx, hpre⟩ := computeLayout_some_prelude a L hL
  have hY : yearOf a.fromDate ≤ yearOf a.toDate := yearOf_mono hft
  have hLcs : L.cellSize = ctx.cellSize := by
    have h2 := hL
    rw [computeLayout_eq a ctx hf0 hf6 hpre] at h2
    cases h2
    rfl
  rw [hLcs] at hcp ⊢
  obtain ⟨i1, j1, hj1, hm1e⟩ := computeLayout_months_mem a ctx L hf0 hf6 hY hpre hL hm1
  obtain ⟨i2, j2, hj2, hm2e⟩ := computeLayout_months_mem a ctx L hf0 hf6 hY hpre hL hm2
  subst hm1e
  subst hm2e
  have hfld1 := monthRecT_fields a ctx i1 (yearOf a.fromDate + (i1 : Int)) j1 hj1
  have hfld2 := monthRecT_fields a ctx i2 (yearOf a.fromDate + (i2 : Int)) j2 hj2
  refine ⟨?_, ?_, ?_⟩
  · -- different years never overlap
    intro hne hov
    rw [hfld1.1, hfld2.1] at hne
    obtain ⟨ho1, ho2, ho3, ho4⟩ := hov
    cases hd : a.direction with
    | horizontal =>
        rcases monthRecT_bbox_horizontal a ctx hd i1
          (yearOf a.fromDate + (i1 : Int)) j1 hj1 with ⟨_, _, hy1, hh1⟩
        rcases monthRecT_bbox_horizontal a ctx hd i2
          (yearOf a.fromDate + (i2 : Int)) j2 hj2 with ⟨_, _, hy2, hh2⟩
        rcases Nat.lt_or_ge i1 i2 with hi | hi
        · have hc : ((i1 : Int) : ℚ) + 1 ≤ ((i2 : Int) : ℚ) := by
            push_cast
            exact_mod_cast hi
          have hsep := band_sep ctx.originY
            (7 * (ctx.cellSize + a.daySpacing) + a.yearSpacing)
            ((i1 : Int) : ℚ) ((i2 : Int) : ℚ)
            (7 * (ctx.cellSize + a.daySpacing)) (by linarith) (by linarith) hc
          linarith [ho4, hsep, hy1, hh1, hy2]
        · have hi' : i2 < i1 := by omega
          have hc : ((i2 : Int) : ℚ) + 1 ≤ ((i1 : Int) : ℚ) := by
            push_cast
            exact_mod_cast hi'
          have hsep := band_sep ctx.originY
            (7 * (ctx.cellSize + a.daySpacing) + a.yearSpacing)
            ((i2 : Int) : ℚ) ((i1 : Int) : ℚ)
            (7 * (ctx.cellSize + a.daySpacing)) (by linarith) (by linarith) hc
          linarith [ho3, hsep, hy1, hy2, hh2]
    | vertical =>
        rcases monthRecT_bbox_vertical a ctx hd i1
          (yearOf a.fromDate + (i1 : Int)) j1 hj1 with ⟨_, _, hx1, hw1⟩
        rcases monthRecT_bbox_vertical a ctx hd i2
          (yearOf a.fromDate + (i2 : Int)) j2 hj2 with ⟨_, _, hx2, hw2⟩
        rcases Nat.lt_or_ge i1 i2 with hi | hi
        · have hc : ((i1 : Int) : ℚ) + 1 ≤ ((i2 : Int) : ℚ) := by
            push_cast
            exact_mod_cast hi
          have hsep := band_sep ctx.originX
            (7 * (ctx.cellSize + a.daySpacing) + a.yearSpacing)
            ((i1 : Int) : ℚ) ((i2 : Int) : ℚ)
            (7 * (ctx.cellSize + a.daySpacing)) (by linarith) (by linarith) hc
          linarith [ho2, hsep, hx1, hw1, hx2]
        · have hi' : i2 < i1 := by omega
          have hc : ((i2 : Int) : ℚ) + 1 ≤ ((i1 : Int) : ℚ) := by
            push_cast
            exact_mod_cast hi'
          have hsep := band_sep ctx.originX
            (7 * (ctx.cellSize + a.daySpacing) + a.yearSpacing)
            ((i2 : Int) : ℚ) ((i1 : Int) : ℚ)
            (7 * (ctx.cellSize + a.daySpacing)) (by linarith) (by linarith) hc
          linarith [ho1, hsep, hx1, hx2, hw2]
  · -- same year, months at least two apart, never overlap
    intro hyeq hmle hov
    rw [hfld1.1, hfld2.1] at hyeq
    have hie : i1 = i2 := by omega
    subst hie
    rw [hfld1.2, hfld2.2] at hmle
    obtain ⟨ho1, ho2, ho3, ho4⟩ := hov
    have hg := lw_gap (getTimeInterval a.firstDayOfWeek)
      (yearOf a.fromDate + (i1 : Int)) (j1 : Int) (j2 : Int) (by omega)
    cases hd : a.direction with
    | horizontal =>
        rcases monthRecT_bbox_horizontal a ctx hd i1
          (yearOf a.fromDate + (i1 : Int)) j1 hj1 with ⟨_, hw1, _, _⟩
        rcases monthRecT_bbox_horizontal a ctx hd i1
          (yearOf a.fromDate + (i1 : Int)) j2 hj2 with ⟨hx2, _, _, _⟩
        have hws := week_sep ctx.originX (ctx.cellSize + a.daySpacing)
          (weekCount (getTimeInterval a.firstDayOfWeek)
            (jan1 (yearOf a.fromDate + (i1 : Int)))
            (monthStart (12 * (yearOf a.fromDate + (i1 : Int)) + (j1 : Int) + 1) - 1))
          (weekCount (getTimeInterval a.firstDayOfWeek)
            (jan1 (yearOf a.fromDate + (i1 : Int)))
            (monthStart (12 * (yearOf a.fromDate + (i1 : Int)) + (j2 : Int))))
          hcp (by omega)
        linarith [ho2, hws, hw1, hx2]
    | vertical =>
        rcases monthRecT_bbox_vertical a ctx hd i1
          (yearOf a.fromDate + (i1 : Int)) j1 hj1 with ⟨_, hh1, _, _⟩
        rcases monthRecT_bbox_vertical a ctx hd i1
          (yearOf a.fromDate + (i1 : Int)) j2 hj2 with ⟨hy2, _, _, _⟩
        have hws := week_sep ctx.originY (ctx.cellSize + a.daySpacing)
          (weekCount (getTimeInterval a.firstDayOfWeek)
            (jan1 (yearOf a.fromDate + (i1 : Int)))
            (monthStart (12 * (yearOf a.fromDate + (i1 : Int)) + (j1 : Int) + 1) - 1))
          (weekCount (getTimeInterval a.firstDayOfWeek)
            (jan1 (yearOf a.fromDate + (i1 : Int)))
            (monthStart (12 * (yearOf a.fromDate + (i1 : Int)) + (j2 : Int))))
          hcp (by omega)
        linarith [ho4, hws, hh1, hy2]
  · -- consecutive months of the same year: adjacent or one column apart
    intro hyeq hmeq
    rw [hfld1.1, hfld2.1] at hyeq
    have hie : i1 = i2 := by omega
    subst hie
    rw [hfld1.2, hfld2.2] at hmeq
    have hidx : 12 * (yearOf a.fromDate + (i1 : Int)) + (j2 : Int)
        = 12 * (yearOf a.fromDate + (i1 : Int)) + (j1 : Int) + 1 := by omega
    cases hd : a.direction with
    | horizontal =>
        rcases monthRecT_bbox_horizontal a ctx hd i1
          (yearOf a.fromDate + (i1 : Int)) j1 hj1 with ⟨_, hw1, _, _⟩
        rcases monthRecT_bbox_horizontal a ctx hd i1
          (yearOf a.fromDate + (i1 : Int)) j2 hj2 with ⟨hx2, _, _, _⟩
        rw [hidx] at hx2
        rcases fw_succ (getTimeInterval a.firstDayOfWeek)
          (yearOf a.fromDate + (i1 : Int)) (j1 : Int) with h | h
        · right
          simp only [weekAxisFar, weekAxisNear]
          rw [hw1, hx2, h]
          ring
        · left
          simp only [weekAxisFar, weekAxisNear]
          rw [hw1, hx2, h]
          push_cast
          ring
    | vertical =>
        rcases monthRecT_bbox_vertical a ctx hd i1
          (yearOf a.fromDate + (i1 : Int)) j1 hj1 with ⟨_, hh1, _, _⟩
        rcases monthRecT_bbox_vertical a ctx hd i1
          (yearOf a.fromDate + (i1 : Int)) j2 hj2 with ⟨hy2, _, _, _⟩
        rw [hidx] at hy2
        rcases fw_succ (getTimeInterval a.firstDayOfWeek)
          (yearOf a.fromDate + (i1 : Int)) (j1 : Int) with h | h
        · right
          simp only [weekAxisFar, weekAxisNear]
          rw [hh1, hy2, h]
          ring
        · left
          simp only [weekAxisFar, weekAxisNear]
          rw [hh1, hy2, h]
          push_cast
          ring

unseal Rat.add Rat.sub Rat.mul Rat.inv in
theorem computeLayout_month_bbox_separation_witness :
    ((0 : Int) ≤ args2018.firstDayOfWeek ∧ args2018.firstDayOfWeek ≤ 6 ∧
      args2018.fromDate ≤ args2018.toDate ∧
      (0 : ℚ) ≤ L2018.cellSize + args2018.daySpacing ∧
      (0 : ℚ) ≤ args2018.yearSpacing ∧ month0of2018 ∈ L2018.months) ∧
    ((month0of2018.year ≠ month0of2018.year →
        ¬ bboxOverlap month0of2018.bbox month0of2018.bbox) ∧
      (month0of2018.year = month0of2018.year →
        month0of2018.month + 2 ≤ month0of2018.month →
        ¬ bboxOverlap month0of2018.bbox month0of2018.bbox) ∧
      (month0of2018.year = month0of2018.year →
        month0of2018.month = month0of2018.month + 1 →
        weekAxisFar args2018.direction month0of2018.bbox
          = weekAxisNear args2018.direction month0of2018.bbox ∨
        weekAxisFar args2018.direction month0of2018.bbox
          = weekAxisNear args2018.direction month0of2018.bbox
            + (L2018.cellSize + args2018.daySpacing))) :=
  ⟨⟨by decide, by decide, by decide, by decide, by decide, by decide⟩,
    computeLayout_month_bbox_separation args2018 L2018 (by rfl)
      (by decide) (by decide) (by decide) (by decide) (by decide)
      month0of2018 month0of2018 (by decide) (by decide)⟩

unseal Rat.add Rat.sub Rat.mul Rat.inv in
/-- C3 counterexample: in the spec's own 2018 scenario, January and
February 2018 are consecutive months of the same year, their bounding
boxes DO overlap (they share the transition week of Jan 28 - Feb 3), and
the far edge of January along the week axis does not coincide with the
near edge of February (it sits one week column beyond it), refuting both
the unconditional non-overlap and the exact-adjacency reading. -/
theorem computeLayout_month_overlap_counterexample :
    computeLayout args2018 = some L2018 ∧
    month0of2018 ∈ L2018.months ∧ month1of2018 ∈ L2018.months ∧
    month0of2018 ≠ month1of2018 ∧
    month0of2018.year = month1of2018.year ∧
    month1of2018.month = month0of2018.month + 1 ∧
    bboxOverlap month0of2018.bbox month1of2018.bbox ∧
    weekAxisFar args2018.direction month0of2018.bbox
      ≠ weekAxisNear args2018.direction month1of2018.bbox :=
  ⟨by rfl, by decide, by decide, by decide, by decide, by decide, by decide,
    by decide⟩
